import Mathlib

/-!
# ADMM Lasso path driver (`src/Lasso.cpp`)

A shallow embedding of the path driver `admm_lasso` together with its two helpers
`max_eigenvalue` and `write_beta_matrix`.

* Numbers of C++ type `double` are elements of a field `R`; the theorems about `exp` and
  `log` take `R = ℝ` with `Real.exp` and `Real.log`.
* The collaborators whose code lives in `ADMMLasso.h` and `DataStd.h` are interfaces
  (`ADMMLasso`, `DataStd`): records of state-passing operations over an arbitrary state type.
* `Eigen::SparseVector` and `Eigen::SparseMatrix` are lists of stored entries.
* The R function `rARPACK::svds` called by `max_eigenvalue` may raise an R error, which
  `BEGIN_RCPP`/`END_RCPP` forward to the caller: it returns `Except String R`.
* The arguments handed to the solver are stated as the expressions the source computes
  (`lambda[i] * n / scaleY`, `ilambda / (rho_ratio * sprad)`). Only the theorems on the
  generated path, which are stated over the reals, reason about the values of such
  expressions; in particular nothing is derived from the value of a quotient by zero.
-/

namespace ADMM

/-! ## Data model -/

/-- Dense matrix `Eigen::MatrixXd`: dimensions and column-major storage. -/
structure MatrixXd (R : Type) where
  rows : Nat
  cols : Nat
  data : List R

/-- Dense vector `Eigen::VectorXd` / `Eigen::ArrayXd`. -/
abbrev VectorXd (R : Type) := List R

/-- Sparse vector `SpVec = Eigen::SparseVector<double>`: its size and the stored
`(index, value)` pairs in the order `SpVec::InnerIterator` visits them. -/
structure SpVec (R : Type) where
  size : Nat
  entries : List (Nat × R)

/-- Value of coefficient `j` of a sparse vector: the stored value, zero where nothing is stored. -/
def SpVec.coeff {R : Type} [Zero R] (v : SpVec R) (j : Nat) : R :=
  match v.entries.find? (fun e => e.1 == j) with
  | some e => e.2
  | none => 0

/-- Sparse matrix `SpMat = Eigen::SparseMatrix<double>`: dimensions and the stored
`(row, col, value)` entries, in insertion order. -/
structure SpMat (R : Type) where
  rows : Nat
  cols : Nat
  entries : List (Nat × Nat × R)

/-- Constructor `SpMat beta(rows, cols)`: no stored entry. -/
def SpMat.create {R : Type} (rows cols : Nat) : SpMat R := ⟨rows, cols, []⟩

/-- Assignment `m.insert(row, col) = v`: one more stored entry. Eigen checks the position only
through `eigen_assert`, which is compiled out under `NDEBUG`, so the entry is stored
unconditionally. -/
def SpMat.insert {R : Type} (m : SpMat R) (row col : Nat) (v : R) : SpMat R :=
  { m with entries := m.entries ++ [(row, col, v)] }

/-- Value of `m(row, col)`: the stored value, zero where nothing is stored. -/
def SpMat.coeff {R : Type} [Zero R] (m : SpMat R) (row col : Nat) : R :=
  match m.entries.find? (fun e => e.1 == row && e.2.1 == col) with
  | some e => e.2.2
  | none => 0

/-- Stored entries of column `col`. -/
def SpMat.column {R : Type} (m : SpMat R) (col : Nat) : List (Nat × Nat × R) :=
  m.entries.filter (fun e => e.2.1 == col)

/-- Call `m.makeCompressed()`: drops the reserved free room, the stored entries stay. -/
def SpMat.makeCompressed {R : Type} (m : SpMat R) : SpMat R := m

/-- Entries of `opts_` read by the driver. -/
structure Opts (R : Type) where
  maxit : Int
  eps_abs : R
  eps_rel : R
  rho_ratio : R

/-- Interface of class `DataStd` (`DataStd.h`) over its object state `δ`. -/
structure DataStd (R δ : Type) where
  /-- constructor `DataStd(n, p, standardize, intercept)` -/
  create : Nat → Nat → Bool → Bool → δ
  /-- method `standardize(X, Y)`, which updates the object and both arguments -/
  standardize : δ → MatrixXd R → VectorXd R → δ × MatrixXd R × VectorXd R
  /-- method `get_scaleY()` -/
  get_scaleY : δ → R
  /-- method `recover(beta0, coef)`, which updates both arguments -/
  recover : δ → R → SpVec R → R × SpVec R

/-- Interface of class `ADMMLasso` (`ADMMLasso.h`) over its object state `σ`. -/
structure ADMMLasso (R σ : Type) where
  /-- constructor `ADMMLasso(datX, datY, sprad, eps_abs, eps_rel)` -/
  create : MatrixXd R → VectorXd R → R → R → R → σ
  /-- method `lambda_max()` -/
  lambda_max : σ → R
  /-- method `init(lambda, rho)` -/
  init : σ → R → R → σ
  /-- method `init_warm(lambda)` -/
  init_warm : σ → R → σ
  /-- method `solve(maxit)`: the iteration count and the updated object -/
  solve : σ → Int → Int × σ
  /-- method `get_x()` -/
  get_x : σ → SpVec R

/-- Everything `admm_lasso` calls that is not in `Lasso.cpp`. -/
structure Env (R δ σ : Type) where
  exp : R → R
  log : R → R
  /-- leading singular value `svds(x, 1, 0, 0)$d` computed by `rARPACK`, or the R error -/
  svds_d : MatrixXd R → Except String R
  datstd : DataStd R δ
  solver : ADMMLasso R σ

/-- The list returned by `admm_lasso`. -/
structure Output (R : Type) where
  lambda : List R
  beta : SpMat R
  niter : List Int

/-! ## Functions of `Lasso.cpp` -/

/-- Function `max_eigenvalue`: the square of the leading singular value. -/
def max_eigenvalue {R : Type} [Mul R] (svds_d : MatrixXd R → Except String R)
    (X : MatrixXd R) : Except String R :=
  match svds_d X with
  | .error e => .error e
  | .ok sprad => .ok (sprad * sprad)

/-- Function `write_beta_matrix`: inserts the intercept at row 0 of column `col`, then every
stored coefficient `(index, value)` at row `index + 1`. -/
def write_beta_matrix {R : Type} (betas : SpMat R) (col : Nat) (beta0 : R) (coef : SpVec R) :
    SpMat R :=
  coef.entries.foldl (fun b e => b.insert (e.1 + 1) col e.2) (betas.insert 0 col beta0)

/-- Eigen's `setLinSpaced(size, low, high)` on a `double` array: entry `i` is
`low + i * step` with `step = (high - low) / (size - 1)`; for `size == 1` the functor is built
from `high` and a zero step, so the single entry is `high`. -/
def setLinSpaced {R : Type} [Field R] (size : Nat) (low high : R) : List R :=
  (List.range size).map fun (i : Nat) =>
    (if size = 1 then high else low)
      + (i : R) * (if size = 1 then 0 else (high - low) / ((size - 1 : Nat) : R))

/-- Variables the path loop updates. -/
structure LoopState (R σ : Type) where
  solver : σ
  beta : SpMat R
  niter : List Int

/-- Body of the loop `for(int i = 0; i < nlambda; i++)`. -/
def loop_body {R δ σ : Type} [Field R] (E : Env R δ σ) (datstd : δ) (n : Nat)
    (lambda : List R) (rho_ratio sprad : R) (maxit : Int)
    (st : LoopState R σ) (i : Nat) : LoopState R σ :=
  let ilambda := lambda.getD i 0 * (n : R) / E.datstd.get_scaleY datstd
  let s1 :=
    if i = 0 then E.solver.init st.solver ilambda (ilambda / (rho_ratio * sprad))
    else E.solver.init_warm st.solver ilambda
  let r := E.solver.solve s1 maxit
  let res := E.solver.get_x r.2
  let rec0 := E.datstd.recover datstd 0 res
  { solver := r.2
    beta := write_beta_matrix st.beta i rec0.1 rec0.2
    niter := st.niter.set i r.1 }

/-- The lambda path of `admm_lasso`: the supplied sequence, or, when it is empty,
`exp` of `nlambda_` linearly spaced points from `log(lmax)` to `log(lmin)`. -/
def lambda_path {R δ σ : Type} [Field R] (E : Env R δ σ) (datstd : δ) (solver : σ) (n : Nat)
    (lambda_ : List R) (nlambda_ : Nat) (lmin_ratio_ : R) : List R :=
  if lambda_.length < 1 then
    let lmax := E.solver.lambda_max solver / (n : R) * E.datstd.get_scaleY datstd
    let lmin := lmin_ratio_ * lmax
    (setLinSpaced nlambda_ (E.log lmax) (E.log lmin)).map E.exp
  else lambda_

/-- Function `admm_lasso`. The result is the returned list and, beside it, the solver object
as the call leaves it; an error is the R error raised inside `max_eigenvalue`. The argument
`nlambda_` is the value of `as<int>(nlambda_)`, a size, which `setLinSpaced` requires to be
non-negative; `beta.reserve` only allocates room and has no counterpart here. -/
def admm_lasso {R δ σ : Type} [Field R] (E : Env R δ σ) (x_ : MatrixXd R) (y_ : VectorXd R)
    (lambda_ : List R) (nlambda_ : Nat) (lmin_ratio_ : R) (standardize_ intercept_ : Bool)
    (opts_ : Opts R) : Except String (Output R × σ) :=
  let n := x_.rows
  let p := x_.cols
  let std := E.datstd.standardize (E.datstd.create n p standardize_ intercept_) x_ y_
  let datstd := std.1
  let datX := std.2.1
  let datY := std.2.2
  match max_eigenvalue E.svds_d datX with
  | .error e => .error e
  | .ok sprad =>
    let solver := E.solver.create datX datY sprad opts_.eps_abs opts_.eps_rel
    let lambda := lambda_path E datstd solver n lambda_ nlambda_ lmin_ratio_
    let nlambda := lambda.length
    let st := (List.range nlambda).foldl
      (loop_body E datstd n lambda opts_.rho_ratio sprad opts_.maxit)
      { solver := solver, beta := SpMat.create (p + 1) nlambda, niter := List.replicate nlambda 0 }
    .ok ({ lambda := lambda, beta := st.beta.makeCompressed, niter := st.niter }, st.solver)

/-! ## Observing the solver calls -/

/-- A call of a state-changing solver method, with its arguments. -/
inductive Call (R : Type) where
  | init (lambda rho : R)
  | init_warm (lambda : R)
  | solve (maxit : Int)

/-- The solver `S` with a log beside its state: every call of `init`, `init_warm` and `solve`
is appended to the log with its arguments and otherwise does what `S` does. -/
def traced {R σ : Type} (S : ADMMLasso R σ) : ADMMLasso R (σ × List (Call R)) where
  create X Y sprad eps_abs eps_rel := (S.create X Y sprad eps_abs eps_rel, [])
  lambda_max s := S.lambda_max s.1
  init s l rho := (S.init s.1 l rho, s.2 ++ [Call.init l rho])
  init_warm s l := (S.init_warm s.1 l, s.2 ++ [Call.init_warm l])
  solve s maxit := ((S.solve s.1 maxit).1, (S.solve s.1 maxit).2, s.2 ++ [Call.solve maxit])
  get_x s := S.get_x s.1

/-- The environment `E` with its solver traced. -/
def tracedEnv {R δ σ : Type} (E : Env R δ σ) : Env R δ (σ × List (Call R)) where
  exp := E.exp
  log := E.log
  svds_d := E.svds_d
  datstd := E.datstd
  solver := traced E.solver

/-! ## Quantities the statements refer to -/

/-- The standardizer object and data after `datstd.standardize(datX, datY)`. -/
def standardized {R δ σ : Type} (E : Env R δ σ) (x_ : MatrixXd R) (y_ : VectorXd R)
    (standardize_ intercept_ : Bool) : δ × MatrixXd R × VectorXd R :=
  E.datstd.standardize (E.datstd.create x_.rows x_.cols standardize_ intercept_) x_ y_

/-- Solver object after the `solve` of path index `i`, for internal strengths `ilam` and a
first penalty parameter `rho`. -/
def solver_after {R σ : Type} (S : ADMMLasso R σ) (ilam : Nat → R) (rho : R) (maxit : Int)
    (s0 : σ) : Nat → σ
  | 0 => (S.solve (S.init s0 (ilam 0) rho) maxit).2
  | i + 1 => (S.solve (S.init_warm (solver_after S ilam rho maxit s0 i) (ilam (i + 1))) maxit).2

/-- Stored entries that `write_beta_matrix` adds for column `col`. -/
def column_entries {R : Type} (col : Nat) (beta0 : R) (coef : SpVec R) : List (Nat × Nat × R) :=
  (0, col, beta0) :: coef.entries.map (fun e => (e.1 + 1, col, e.2))

/-- Intercept and coefficient vector that `datstd.recover` yields from `solver.get_x()` when the
solver object is `s`. -/
def recovered {R δ σ : Type} [Zero R] (E : Env R δ σ) (datstd : δ) (s : σ) : R × SpVec R :=
  E.datstd.recover datstd 0 (E.solver.get_x s)

/-- Solver object right after its construction, for the spectral radius `sprad`. -/
def solver0 {R δ σ : Type} (E : Env R δ σ) (x_ : MatrixXd R) (y_ : VectorXd R)
    (standardize_ intercept_ : Bool) (opts_ : Opts R) (sprad : R) : σ :=
  E.solver.create (standardized E x_ y_ standardize_ intercept_).2.1
    (standardized E x_ y_ standardize_ intercept_).2.2 sprad opts_.eps_abs opts_.eps_rel

/-- Value of `datstd.get_scaleY()` during the call. -/
def scaleY {R δ σ : Type} (E : Env R δ σ) (x_ : MatrixXd R) (y_ : VectorXd R)
    (standardize_ intercept_ : Bool) : R :=
  E.datstd.get_scaleY (standardized E x_ y_ standardize_ intercept_).1

/-- Value `lmax` of the auto-generation branch: `solver.lambda_max() / n * scaleY`. -/
def lmax {R δ σ : Type} [Field R] (E : Env R δ σ) (x_ : MatrixXd R) (y_ : VectorXd R)
    (standardize_ intercept_ : Bool) (opts_ : Opts R) (sprad : R) : R :=
  E.solver.lambda_max (solver0 E x_ y_ standardize_ intercept_ opts_ sprad) / (x_.rows : R)
    * scaleY E x_ y_ standardize_ intercept_

/-- State of the loop variables after the first `k` turns of the path loop. -/
def loop_run {R δ σ : Type} [Field R] (E : Env R δ σ) (datstd : δ) (n : Nat)
    (lambda : List R) (rho_ratio sprad : R) (maxit : Int) (st : LoopState R σ) (k : Nat) :
    LoopState R σ :=
  (List.range k).foldl (loop_body E datstd n lambda rho_ratio sprad maxit) st

/-- The lambda path of the call, for the spectral radius `sprad`. -/
def path {R δ σ : Type} [Field R] (E : Env R δ σ) (x_ : MatrixXd R) (y_ : VectorXd R)
    (lambda_ : List R) (nlambda_ : Nat) (lmin_ratio_ : R) (standardize_ intercept_ : Bool)
    (opts_ : Opts R) (sprad : R) : List R :=
  lambda_path E (standardized E x_ y_ standardize_ intercept_).1
    (solver0 E x_ y_ standardize_ intercept_ opts_ sprad) x_.rows lambda_ nlambda_ lmin_ratio_

/-- Internal strength `ilambda = lambda[i] * n / scaleY` of path index `i`. -/
def ilambda {R δ σ : Type} [Field R] (E : Env R δ σ) (x_ : MatrixXd R) (y_ : VectorXd R)
    (lambda_ : List R) (nlambda_ : Nat) (lmin_ratio_ : R) (standardize_ intercept_ : Bool)
    (opts_ : Opts R) (sprad : R) (i : Nat) : R :=
  (path E x_ y_ lambda_ nlambda_ lmin_ratio_ standardize_ intercept_ opts_ sprad).getD i 0
    * (x_.rows : R) / scaleY E x_ y_ standardize_ intercept_

/-- Loop variables when the path loop of the call ends, for the spectral radius `sprad`. -/
def final {R δ σ : Type} [Field R] (E : Env R δ σ) (x_ : MatrixXd R) (y_ : VectorXd R)
    (lambda_ : List R) (nlambda_ : Nat) (lmin_ratio_ : R) (standardize_ intercept_ : Bool)
    (opts_ : Opts R) (sprad : R) : LoopState R σ :=
  loop_run E (standardized E x_ y_ standardize_ intercept_).1 x_.rows
    (path E x_ y_ lambda_ nlambda_ lmin_ratio_ standardize_ intercept_ opts_ sprad)
    opts_.rho_ratio sprad opts_.maxit
    { solver := solver0 E x_ y_ standardize_ intercept_ opts_ sprad
      beta := SpMat.create (x_.cols + 1)
        (path E x_ y_ lambda_ nlambda_ lmin_ratio_ standardize_ intercept_ opts_ sprad).length
      niter := List.replicate
        (path E x_ y_ lambda_ nlambda_ lmin_ratio_ standardize_ intercept_ opts_ sprad).length 0 }
    (path E x_ y_ lambda_ nlambda_ lmin_ratio_ standardize_ intercept_ opts_ sprad).length

/-- Intercept and coefficient vector recovered after the `solve` of path index `i`: the
solution the call obtains for `lambda[i]`. -/
def recovered_at {R δ σ : Type} [Field R] (E : Env R δ σ) (x_ : MatrixXd R) (y_ : VectorXd R)
    (lambda_ : List R) (nlambda_ : Nat) (lmin_ratio_ : R) (standardize_ intercept_ : Bool)
    (opts_ : Opts R) (sprad : R) (i : Nat) : R × SpVec R :=
  recovered E (standardized E x_ y_ standardize_ intercept_).1
    (solver_after E.solver
      (ilambda E x_ y_ lambda_ nlambda_ lmin_ratio_ standardize_ intercept_ opts_ sprad)
      (ilambda E x_ y_ lambda_ nlambda_ lmin_ratio_ standardize_ intercept_ opts_ sprad 0
        / (opts_.rho_ratio * sprad))
      opts_.maxit (solver0 E x_ y_ standardize_ intercept_ opts_ sprad) i)

/-- The environment `E` with the solver's `lambda_max` replaced by `f`. -/
def withLambdaMax {R δ σ : Type} (E : Env R δ σ) (f : σ → R) : Env R δ σ where
  exp := E.exp
  log := E.log
  svds_d := E.svds_d
  datstd := E.datstd
  solver :=
    { create := E.solver.create
      lambda_max := f
      init := E.solver.init
      init_warm := E.solver.init_warm
      solve := E.solver.solve
      get_x := E.solver.get_x }

/-! ## A small concrete environment -/

/-- A standardizer that leaves the data unchanged, has response scale 1 and recovers the
coefficients unchanged. -/
def unitStd (R : Type) [One R] : DataStd R Unit where
  create _ _ _ _ := ()
  standardize d X Y := (d, X, Y)
  get_scaleY _ := 1
  recover _ beta0 coef := (beta0, coef)

/-- A solver for one feature whose object is the strength it was last given; `lambda_max` is
`lm`, `solve` reports `maxit` iterations and `get_x` stores the strength at index 0. -/
def echoSolver (R : Type) [Zero R] (lm : R) : ADMMLasso R R where
  create _ _ _ _ _ := 0
  lambda_max _ := lm
  init _ l _ := l
  init_warm _ l := l
  solve s maxit := (maxit, s)
  get_x s := ⟨1, [(0, s)]⟩

/-- Environment of `unitStd` and `echoSolver` with a given `exp`, `log` and `svds` answer. -/
def echoEnv {R : Type} [Field R] (exp log : R → R) (sv : Except String R) (lm : R) :
    Env R Unit R where
  exp := exp
  log := log
  svds_d _ := sv
  datstd := unitStd R
  solver := echoSolver R lm

/-! ## Lemmas on the helpers -/

section Helpers

variable {R δ σ : Type}

theorem foldl_insert_entries (col : Nat) (l : List (Nat × R)) (b : SpMat R) :
    (l.foldl (fun b e => b.insert (e.1 + 1) col e.2) b).entries
        = b.entries ++ l.map (fun e => (e.1 + 1, col, e.2))
      ∧ (l.foldl (fun b e => b.insert (e.1 + 1) col e.2) b).rows = b.rows
      ∧ (l.foldl (fun b e => b.insert (e.1 + 1) col e.2) b).cols = b.cols := by
  induction l generalizing b with
  | nil => simp
  | cons e t ih =>
    obtain ⟨h1, h2, h3⟩ := ih (b.insert (e.1 + 1) col e.2)
    simp only [List.foldl_cons, List.map_cons]
    refine ⟨?_, ?_, ?_⟩
    · rw [h1]; simp [SpMat.insert]
    · rw [h2]; rfl
    · rw [h3]; rfl

theorem write_beta_matrix_entries (betas : SpMat R) (col : Nat) (beta0 : R) (coef : SpVec R) :
    (write_beta_matrix betas col beta0 coef).entries
      = betas.entries ++ column_entries col beta0 coef := by
  unfold write_beta_matrix column_entries
  rw [(foldl_insert_entries col coef.entries _).1]
  simp [SpMat.insert]

theorem write_beta_matrix_rows (betas : SpMat R) (col : Nat) (beta0 : R) (coef : SpVec R) :
    (write_beta_matrix betas col beta0 coef).rows = betas.rows := by
  unfold write_beta_matrix
  rw [(foldl_insert_entries col coef.entries _).2.1]; rfl

theorem write_beta_matrix_cols (betas : SpMat R) (col : Nat) (beta0 : R) (coef : SpVec R) :
    (write_beta_matrix betas col beta0 coef).cols = betas.cols := by
  unfold write_beta_matrix
  rw [(foldl_insert_entries col coef.entries _).2.2]; rfl

theorem max_eigenvalue_ok [Mul R] (svds_d : MatrixXd R → Except String R) (X : MatrixXd R)
    (d : R) (h : svds_d X = .ok d) : max_eigenvalue svds_d X = .ok (d * d) := by
  simp [max_eigenvalue, h]

theorem max_eigenvalue_error [Mul R] (svds_d : MatrixXd R → Except String R) (X : MatrixXd R)
    (e : String) (h : svds_d X = .error e) : max_eigenvalue svds_d X = .error e := by
  simp [max_eigenvalue, h]

theorem loop_run_succ [Field R] (E : Env R δ σ) (datstd : δ) (n : Nat)
    (lambda : List R) (rho_ratio sprad : R) (maxit : Int) (st : LoopState R σ) (k : Nat) :
    loop_run E datstd n lambda rho_ratio sprad maxit st (k + 1)
      = loop_body E datstd n lambda rho_ratio sprad maxit
          (loop_run E datstd n lambda rho_ratio sprad maxit st k) k := by
  simp [loop_run, List.range_succ]

/-- The solver object after `k + 1` turns of the loop is the one `solver_after` describes. -/
theorem loop_run_solver [Field R] (E : Env R δ σ) (datstd : δ) (n : Nat)
    (lambda : List R) (rho_ratio sprad : R) (maxit : Int) (st : LoopState R σ) (k : Nat) :
    (loop_run E datstd n lambda rho_ratio sprad maxit st (k + 1)).solver
      = solver_after E.solver
          (fun i => lambda.getD i 0 * (n : R) / E.datstd.get_scaleY datstd)
          (lambda.getD 0 0 * (n : R) / E.datstd.get_scaleY datstd / (rho_ratio * sprad))
          maxit st.solver k := by
  induction k with
  | zero => rfl
  | succ k ih =>
    rw [loop_run_succ]
    simp only [loop_body, solver_after, Nat.succ_ne_zero, if_false, ← ih]

theorem loop_body_beta [Field R] (E : Env R δ σ) (datstd : δ) (n : Nat)
    (lambda : List R) (rho_ratio sprad : R) (maxit : Int) (st : LoopState R σ) (i : Nat) :
    (loop_body E datstd n lambda rho_ratio sprad maxit st i).beta
      = write_beta_matrix st.beta i
          (recovered E datstd (loop_body E datstd n lambda rho_ratio sprad maxit st i).solver).1
          (recovered E datstd (loop_body E datstd n lambda rho_ratio sprad maxit st i).solver).2 :=
  rfl

/-- The stored entries after `k` turns: those of the start, then one block per column. -/
theorem loop_run_beta [Field R] (E : Env R δ σ) (datstd : δ) (n : Nat)
    (lambda : List R) (rho_ratio sprad : R) (maxit : Int) (st : LoopState R σ) (k : Nat) :
    (loop_run E datstd n lambda rho_ratio sprad maxit st k).beta.entries
        = st.beta.entries ++ (List.range k).flatMap (fun i =>
            column_entries i
              (recovered E datstd (solver_after E.solver
                (fun i => lambda.getD i 0 * (n : R) / E.datstd.get_scaleY datstd)
                (lambda.getD 0 0 * (n : R) / E.datstd.get_scaleY datstd / (rho_ratio * sprad))
                maxit st.solver i)).1
              (recovered E datstd (solver_after E.solver
                (fun i => lambda.getD i 0 * (n : R) / E.datstd.get_scaleY datstd)
                (lambda.getD 0 0 * (n : R) / E.datstd.get_scaleY datstd / (rho_ratio * sprad))
                maxit st.solver i)).2)
      ∧ (loop_run E datstd n lambda rho_ratio sprad maxit st k).beta.rows = st.beta.rows
      ∧ (loop_run E datstd n lambda rho_ratio sprad maxit st k).beta.cols = st.beta.cols
      ∧ (loop_run E datstd n lambda rho_ratio sprad maxit st k).niter.length
          = st.niter.length := by
  induction k with
  | zero => simp [loop_run]
  | succ k ih =>
    obtain ⟨h1, h2, h3, h4⟩ := ih
    have hs := loop_run_solver E datstd n lambda rho_ratio sprad maxit st k
    rw [loop_run_succ] at hs
    rw [loop_run_succ]
    refine ⟨?_, ?_, ?_, ?_⟩
    · rw [loop_body_beta, write_beta_matrix_entries, h1, hs, List.range_succ,
        List.flatMap_append]
      simp
    · rw [loop_body_beta, write_beta_matrix_rows, h2]
    · rw [loop_body_beta, write_beta_matrix_cols, h3]
    · simp [loop_body, h4]

/-- The traced solver runs the solver it wraps and logs, in order, `init` and `solve` for
index 0 and `init_warm` and `solve` for every later index. -/
theorem solver_after_traced (S : ADMMLasso R σ) (ilam : Nat → R) (rho : R) (maxit : Int)
    (s0 : σ) (l0 : List (Call R)) (k : Nat) :
    solver_after (traced S) ilam rho maxit (s0, l0) k
      = (solver_after S ilam rho maxit s0 k,
          l0 ++ Call.init (ilam 0) rho :: Call.solve maxit ::
            (List.range k).flatMap (fun j => [Call.init_warm (ilam (j + 1)), Call.solve maxit])) := by
  induction k with
  | zero => simp [solver_after, traced]
  | succ k ih =>
    rw [solver_after, ih]
    simp [solver_after, traced, List.range_succ, List.flatMap_append]

/-- A successful call returns the path, the loop's matrix and counts, and the solver object
the loop leaves. -/
theorem admm_lasso_ok [Field R] (E : Env R δ σ) (x_ : MatrixXd R) (y_ : VectorXd R)
    (lambda_ : List R) (nlambda_ : Nat) (lmin_ratio_ : R) (standardize_ intercept_ : Bool)
    (opts_ : Opts R) (d : R)
    (hsv : E.svds_d (standardized E x_ y_ standardize_ intercept_).2.1 = .ok d) :
    admm_lasso E x_ y_ lambda_ nlambda_ lmin_ratio_ standardize_ intercept_ opts_
      = .ok
        ({ lambda := path E x_ y_ lambda_ nlambda_ lmin_ratio_ standardize_ intercept_ opts_ (d * d)
           beta := (final E x_ y_ lambda_ nlambda_ lmin_ratio_ standardize_ intercept_ opts_
                      (d * d)).beta
           niter := (final E x_ y_ lambda_ nlambda_ lmin_ratio_ standardize_ intercept_ opts_
                      (d * d)).niter },
         (final E x_ y_ lambda_ nlambda_ lmin_ratio_ standardize_ intercept_ opts_
            (d * d)).solver) := by
  have h := max_eigenvalue_ok E.svds_d _ d hsv
  unfold admm_lasso
  simp only [standardized] at h
  simp only [h]
  rfl

theorem admm_lasso_error [Field R] (E : Env R δ σ) (x_ : MatrixXd R) (y_ : VectorXd R)
    (lambda_ : List R) (nlambda_ : Nat) (lmin_ratio_ : R) (standardize_ intercept_ : Bool)
    (opts_ : Opts R) (e : String)
    (hsv : E.svds_d (standardized E x_ y_ standardize_ intercept_).2.1 = .error e) :
    admm_lasso E x_ y_ lambda_ nlambda_ lmin_ratio_ standardize_ intercept_ opts_
      = .error e := by
  have h := max_eigenvalue_error E.svds_d _ e hsv
  unfold admm_lasso
  simp only [standardized] at h
  simp only [h]

theorem path_traced [Field R] (E : Env R δ σ) (x_ : MatrixXd R) (y_ : VectorXd R)
    (lambda_ : List R) (nlambda_ : Nat) (lmin_ratio_ : R) (standardize_ intercept_ : Bool)
    (opts_ : Opts R) (sprad : R) :
    path (tracedEnv E) x_ y_ lambda_ nlambda_ lmin_ratio_ standardize_ intercept_ opts_ sprad
      = path E x_ y_ lambda_ nlambda_ lmin_ratio_ standardize_ intercept_ opts_ sprad :=
  rfl

/-- Log of the traced solver when the path loop of the call ends. -/
theorem final_traced_log [Field R] (E : Env R δ σ) (x_ : MatrixXd R) (y_ : VectorXd R)
    (lambda_ : List R) (nlambda_ : Nat) (lmin_ratio_ : R) (standardize_ intercept_ : Bool)
    (opts_ : Opts R) (sprad : R) :
    (path E x_ y_ lambda_ nlambda_ lmin_ratio_ standardize_ intercept_ opts_ sprad = [] →
      (final (tracedEnv E) x_ y_ lambda_ nlambda_ lmin_ratio_ standardize_ intercept_ opts_
        sprad).solver.2 = [])
    ∧ ∀ k, (path E x_ y_ lambda_ nlambda_ lmin_ratio_ standardize_ intercept_ opts_
          sprad).length = k + 1 →
      (final (tracedEnv E) x_ y_ lambda_ nlambda_ lmin_ratio_ standardize_ intercept_ opts_
        sprad).solver.2
        = Call.init
            (ilambda E x_ y_ lambda_ nlambda_ lmin_ratio_ standardize_ intercept_ opts_ sprad 0)
            (ilambda E x_ y_ lambda_ nlambda_ lmin_ratio_ standardize_ intercept_ opts_ sprad 0
              / (opts_.rho_ratio * sprad))
          :: Call.solve opts_.maxit
          :: (List.range k).flatMap (fun j =>
              [Call.init_warm (ilambda E x_ y_ lambda_ nlambda_ lmin_ratio_ standardize_
                  intercept_ opts_ sprad (j + 1)),
               Call.solve opts_.maxit]) := by
  constructor
  · intro h
    unfold final
    rw [path_traced, h]
    rfl
  · intro k hk
    unfold final
    rw [path_traced, hk, loop_run_solver]
    have h0 : solver0 (tracedEnv E) x_ y_ standardize_ intercept_ opts_ sprad
        = (solver0 E x_ y_ standardize_ intercept_ opts_ sprad, []) := rfl
    have h1 : (tracedEnv E).solver = traced E.solver := rfl
    simp only [h0, h1]
    rw [solver_after_traced]
    rfl

theorem max_eigenvalue_ok_inv [Mul R] (svds_d : MatrixXd R → Except String R) (X : MatrixXd R)
    (sprad : R) (h : max_eigenvalue svds_d X = .ok sprad) :
    ∃ d, svds_d X = .ok d ∧ sprad = d * d := by
  unfold max_eigenvalue at h
  cases hd : svds_d X with
  | error e => rw [hd] at h; cases h
  | ok d =>
    rw [hd] at h
    injection h with h
    exact ⟨d, rfl, h.symm⟩

/-- Result of a call with the traced solver when `max_eigenvalue` returns `sprad`. -/
theorem admm_lasso_traced [Field R] (E : Env R δ σ) (x_ : MatrixXd R) (y_ : VectorXd R)
    (lambda_ : List R) (nlambda_ : Nat) (lmin_ratio_ : R) (standardize_ intercept_ : Bool)
    (opts_ : Opts R) (sprad : R)
    (hsp : max_eigenvalue E.svds_d (standardized E x_ y_ standardize_ intercept_).2.1
      = .ok sprad) :
    ∃ out s log,
      admm_lasso (tracedEnv E) x_ y_ lambda_ nlambda_ lmin_ratio_ standardize_ intercept_ opts_
        = .ok (out, (s, log))
      ∧ out.lambda
          = path E x_ y_ lambda_ nlambda_ lmin_ratio_ standardize_ intercept_ opts_ sprad
      ∧ log = (final (tracedEnv E) x_ y_ lambda_ nlambda_ lmin_ratio_ standardize_ intercept_
          opts_ sprad).solver.2 := by
  obtain ⟨d, hd, rfl⟩ := max_eigenvalue_ok_inv _ _ _ hsp
  exact ⟨_, _, _, admm_lasso_ok (tracedEnv E) x_ y_ lambda_ nlambda_ lmin_ratio_ standardize_
    intercept_ opts_ d hd, rfl, rfl⟩

theorem length_flatMap_pair {α : Type} (f g : Nat → α) (n : Nat) :
    ((List.range n).flatMap (fun i => [f i, g i])).length = 2 * n := by
  induction n with
  | zero => simp
  | succ n ih =>
    rw [List.range_succ, List.flatMap_append, List.length_append, ih]
    simp
    omega

/-- Entries `2 * i` and `2 * i + 1` of a list made of one pair per index. -/
theorem getElem?_flatMap_pair {α : Type} (f g : Nat → α) (n i : Nat) (hi : i < n) :
    ((List.range n).flatMap (fun i => [f i, g i]))[2 * i]? = some (f i)
      ∧ ((List.range n).flatMap (fun i => [f i, g i]))[2 * i + 1]? = some (g i) := by
  induction n with
  | zero => omega
  | succ n ih =>
    rw [List.range_succ, List.flatMap_append]
    have hlen := length_flatMap_pair f g n
    rcases Nat.lt_succ_iff_lt_or_eq.mp hi with h | h
    · obtain ⟨h1, h2⟩ := ih h
      constructor
      · rw [List.getElem?_append_left (by omega)]; exact h1
      · rw [List.getElem?_append_left (by omega)]; exact h2
    · subst h
      constructor
      · rw [List.getElem?_append_right (by omega), hlen]; simp
      · rw [List.getElem?_append_right (by omega), hlen]
        have : 2 * i + 1 - 2 * i = 1 := by omega
        simp [this]

/-- The log in one block per path index. -/
theorem calls_uniform {α : Type} (c0 s : α) (w : Nat → α) (k : Nat) :
    c0 :: s :: (List.range k).flatMap (fun j => [w (j + 1), s])
      = (List.range (k + 1)).flatMap (fun i => [if i = 0 then c0 else w i, s]) := by
  induction k with
  | zero => rfl
  | succ k ih =>
    rw [List.range_succ, List.flatMap_append, ← List.cons_append, ← List.cons_append, ih,
      List.range_succ (k + 1), List.flatMap_append]
    simp

/-- The log of a traced call, one block per path index. -/
theorem final_traced_log_uniform [Field R] (E : Env R δ σ) (x_ : MatrixXd R) (y_ : VectorXd R)
    (lambda_ : List R) (nlambda_ : Nat) (lmin_ratio_ : R) (standardize_ intercept_ : Bool)
    (opts_ : Opts R) (sprad : R) :
    (final (tracedEnv E) x_ y_ lambda_ nlambda_ lmin_ratio_ standardize_ intercept_ opts_
        sprad).solver.2
      = (List.range (path E x_ y_ lambda_ nlambda_ lmin_ratio_ standardize_ intercept_ opts_
          sprad).length).flatMap (fun i =>
          [if i = 0 then
              Call.init
                (ilambda E x_ y_ lambda_ nlambda_ lmin_ratio_ standardize_ intercept_ opts_
                  sprad 0)
                (ilambda E x_ y_ lambda_ nlambda_ lmin_ratio_ standardize_ intercept_ opts_
                  sprad 0 / (opts_.rho_ratio * sprad))
            else
              Call.init_warm
                (ilambda E x_ y_ lambda_ nlambda_ lmin_ratio_ standardize_ intercept_ opts_
                  sprad i),
           Call.solve opts_.maxit]) := by
  have h := final_traced_log E x_ y_ lambda_ nlambda_ lmin_ratio_ standardize_ intercept_
    opts_ sprad
  cases hp : (path E x_ y_ lambda_ nlambda_ lmin_ratio_ standardize_ intercept_ opts_
      sprad).length with
  | zero =>
    rw [h.1 (List.length_eq_zero.mp hp)]
    rfl
  | succ k =>
    rw [h.2 k hp]
    exact calls_uniform _ _ (fun i => Call.init_warm (ilambda E x_ y_ lambda_ nlambda_
      lmin_ratio_ standardize_ intercept_ opts_ sprad i)) k

/-- Result of a call when `max_eigenvalue` returns `sprad`. -/
theorem admm_lasso_ok_sprad [Field R] (E : Env R δ σ) (x_ : MatrixXd R) (y_ : VectorXd R)
    (lambda_ : List R) (nlambda_ : Nat) (lmin_ratio_ : R) (standardize_ intercept_ : Bool)
    (opts_ : Opts R) (sprad : R)
    (hsp : max_eigenvalue E.svds_d (standardized E x_ y_ standardize_ intercept_).2.1
      = .ok sprad) :
    admm_lasso E x_ y_ lambda_ nlambda_ lmin_ratio_ standardize_ intercept_ opts_
      = .ok
        ({ lambda := path E x_ y_ lambda_ nlambda_ lmin_ratio_ standardize_ intercept_ opts_ sprad
           beta := (final E x_ y_ lambda_ nlambda_ lmin_ratio_ standardize_ intercept_ opts_
                      sprad).beta
           niter := (final E x_ y_ lambda_ nlambda_ lmin_ratio_ standardize_ intercept_ opts_
                      sprad).niter },
         (final E x_ y_ lambda_ nlambda_ lmin_ratio_ standardize_ intercept_ opts_
            sprad).solver) := by
  obtain ⟨d, hd, rfl⟩ := max_eigenvalue_ok_inv _ _ _ hsp
  exact admm_lasso_ok E x_ y_ lambda_ nlambda_ lmin_ratio_ standardize_ intercept_ opts_ d hd

theorem setLinSpaced_length [Field R] (size : Nat) (low high : R) :
    (setLinSpaced size low high).length = size := by
  simp [setLinSpaced]

theorem map_setLinSpaced_getD (f : ℝ → ℝ) (size : Nat) (low high : ℝ) (i : Nat)
    (hi : i < size) :
    ((setLinSpaced size low high).map f).getD i 0
      = f ((if size = 1 then high else low)
          + (i : ℝ) * (if size = 1 then 0 else (high - low) / ((size - 1 : Nat) : ℝ))) := by
  simp [setLinSpaced, List.getD_eq_getElem?_getD, hi]

/-- Point `i` of a log-spaced sequence of at least two points from `l` down to `r * l`. -/
theorem exp_linear_eq_rpow (l r : ℝ) (hl : 0 < l) (hr : 0 < r) (count i : Nat)
    (hc : 2 ≤ count) :
    Real.exp (Real.log l
        + (i : ℝ) * ((Real.log (r * l) - Real.log l) / ((count - 1 : Nat) : ℝ)))
      = l * r ^ ((i : ℝ) / ((count : ℝ) - 1)) := by
  have hc1 : ((count - 1 : Nat) : ℝ) = (count : ℝ) - 1 := by
    rw [Nat.cast_sub (by omega)]; simp
  rw [hc1, Real.log_mul hr.ne' hl.ne', Real.exp_add, Real.exp_log hl, Real.rpow_def_of_pos hr]
  congr 2
  ring

/-- The generated path over the reals. -/
theorem path_auto (E : Env ℝ δ σ) (x_ : MatrixXd ℝ) (y_ : VectorXd ℝ)
    (nlambda_ : Nat) (lmin_ratio_ : ℝ) (standardize_ intercept_ : Bool)
    (opts_ : Opts ℝ) (sprad : ℝ) (hexp : E.exp = Real.exp) (hlog : E.log = Real.log) :
    path E x_ y_ [] nlambda_ lmin_ratio_ standardize_ intercept_ opts_ sprad
      = (setLinSpaced nlambda_
          (Real.log (lmax E x_ y_ standardize_ intercept_ opts_ sprad))
          (Real.log (lmin_ratio_ * lmax E x_ y_ standardize_ intercept_ opts_ sprad))).map
            Real.exp := by
  rw [← hexp, ← hlog]
  rfl

/-- Every point of the generated path, for at least two points. -/
theorem path_auto_getD (E : Env ℝ δ σ) (x_ : MatrixXd ℝ) (y_ : VectorXd ℝ)
    (nlambda_ : Nat) (lmin_ratio_ : ℝ) (standardize_ intercept_ : Bool)
    (opts_ : Opts ℝ) (sprad : ℝ) (hexp : E.exp = Real.exp) (hlog : E.log = Real.log)
    (hl : 0 < lmax E x_ y_ standardize_ intercept_ opts_ sprad) (hr : 0 < lmin_ratio_)
    (hc : 2 ≤ nlambda_) (i : Nat) (hi : i < nlambda_) :
    (path E x_ y_ [] nlambda_ lmin_ratio_ standardize_ intercept_ opts_ sprad).getD i 0
      = lmax E x_ y_ standardize_ intercept_ opts_ sprad
          * lmin_ratio_ ^ ((i : ℝ) / ((nlambda_ : ℝ) - 1)) := by
  rw [path_auto E x_ y_ nlambda_ lmin_ratio_ standardize_ intercept_ opts_ sprad hexp hlog,
    map_setLinSpaced_getD _ _ _ _ _ hi]
  have h1 : nlambda_ ≠ 1 := by omega
  simp only [h1, if_false]
  exact exp_linear_eq_rpow _ _ hl hr _ _ hc

/-- The generated path of a single point holds the lower endpoint. -/
theorem path_auto_one (E : Env ℝ δ σ) (x_ : MatrixXd ℝ) (y_ : VectorXd ℝ)
    (lmin_ratio_ : ℝ) (standardize_ intercept_ : Bool)
    (opts_ : Opts ℝ) (sprad : ℝ) (hexp : E.exp = Real.exp) (hlog : E.log = Real.log)
    (hl : 0 < lmax E x_ y_ standardize_ intercept_ opts_ sprad) (hr : 0 < lmin_ratio_) :
    path E x_ y_ [] 1 lmin_ratio_ standardize_ intercept_ opts_ sprad
      = [lmin_ratio_ * lmax E x_ y_ standardize_ intercept_ opts_ sprad] := by
  rw [path_auto E x_ y_ 1 lmin_ratio_ standardize_ intercept_ opts_ sprad hexp hlog]
  simp [setLinSpaced, Real.exp_log (mul_pos hr hl)]

theorem lmax_pos (E : Env ℝ δ σ) (x_ : MatrixXd ℝ) (y_ : VectorXd ℝ)
    (standardize_ intercept_ : Bool) (opts_ : Opts ℝ) (sprad : ℝ)
    (hn : 0 < x_.rows) (hsY : 0 < scaleY E x_ y_ standardize_ intercept_)
    (hlm : 0 < E.solver.lambda_max (solver0 E x_ y_ standardize_ intercept_ opts_ sprad)) :
    0 < lmax E x_ y_ standardize_ intercept_ opts_ sprad := by
  unfold lmax
  have : (0 : ℝ) < (x_.rows : ℝ) := by exact_mod_cast hn
  positivity

theorem getElem?_eq_some_getD {α : Type} (l : List α) (i : Nat) (a : α) (hi : i < l.length) :
    l[i]? = some (l.getD i a) := by
  simp [List.getD_eq_getElem?_getD, List.getElem?_eq_getElem hi]

/-- Endpoints of the generated path: the last value is always `minRatio * lmax`; the first
is `lmax` when there are at least two points. -/
theorem path_auto_endpoints (E : Env ℝ δ σ) (x_ : MatrixXd ℝ) (y_ : VectorXd ℝ)
    (nlambda_ : Nat) (lmin_ratio_ : ℝ) (standardize_ intercept_ : Bool)
    (opts_ : Opts ℝ) (sprad : ℝ) (hexp : E.exp = Real.exp) (hlog : E.log = Real.log)
    (hl : 0 < lmax E x_ y_ standardize_ intercept_ opts_ sprad) (hr : 0 < lmin_ratio_)
    (hc : 1 ≤ nlambda_) :
    (path E x_ y_ [] nlambda_ lmin_ratio_ standardize_ intercept_ opts_ sprad).getLast?
        = some (lmin_ratio_ * lmax E x_ y_ standardize_ intercept_ opts_ sprad)
      ∧ (2 ≤ nlambda_ →
          (path E x_ y_ [] nlambda_ lmin_ratio_ standardize_ intercept_ opts_ sprad).head?
            = some (lmax E x_ y_ standardize_ intercept_ opts_ sprad)) := by
  have hlen : (path E x_ y_ [] nlambda_ lmin_ratio_ standardize_ intercept_ opts_
      sprad).length = nlambda_ := by
    rw [path_auto E x_ y_ nlambda_ lmin_ratio_ standardize_ intercept_ opts_ sprad hexp hlog,
      List.length_map, setLinSpaced_length]
  have hget := path_auto_getD E x_ y_ nlambda_ lmin_ratio_ standardize_ intercept_ opts_ sprad
    hexp hlog hl hr
  constructor
  · rcases Nat.lt_or_ge nlambda_ 2 with h | h
    · have h1 : nlambda_ = 1 := by omega
      subst h1
      rw [path_auto_one E x_ y_ lmin_ratio_ standardize_ intercept_ opts_ sprad hexp hlog hl hr]
      rfl
    · rw [List.getLast?_eq_getElem?, hlen,
        getElem?_eq_some_getD _ _ 0 (by rw [hlen]; omega), hget h _ (by omega)]
      have hc1 : ((nlambda_ - 1 : Nat) : ℝ) = (nlambda_ : ℝ) - 1 := by
        rw [Nat.cast_sub (by omega)]; simp
      have hne : (nlambda_ : ℝ) - 1 ≠ 0 := by
        have : (2 : ℝ) ≤ (nlambda_ : ℝ) := by exact_mod_cast h
        intro h0; linarith
      rw [hc1, div_self hne, Real.rpow_one, mul_comm]
  · intro h
    rw [List.head?_eq_getElem?, getElem?_eq_some_getD _ _ 0 (by rw [hlen]; omega),
      hget h 0 (by omega)]
    simp

theorem find?_column_entries_other (col c r : Nat) (hc : c ≠ col) (beta0 : R) (coef : SpVec R) :
    (column_entries col beta0 coef).find? (fun e => e.1 == r && e.2.1 == c) = none := by
  rw [List.find?_eq_none]
  intro e he
  simp only [column_entries, List.mem_cons, List.mem_map] at he
  rcases he with rfl | ⟨a, _, rfl⟩ <;> simp [Ne.symm hc]

theorem find?_column_entries_zero (col : Nat) (beta0 : R) (coef : SpVec R) :
    (column_entries col beta0 coef).find? (fun e => e.1 == 0 && e.2.1 == col)
      = some (0, col, beta0) := by
  simp [column_entries]

theorem find?_column_entries_succ (col j : Nat) (beta0 : R) (coef : SpVec R) :
    (column_entries col beta0 coef).find? (fun e => e.1 == j + 1 && e.2.1 == col)
      = (coef.entries.find? (fun e => e.1 == j)).map (fun e => (e.1 + 1, col, e.2)) := by
  unfold column_entries
  rw [List.find?_cons_of_neg _ (by simp), List.find?_map]
  congr 1
  apply congrArg (fun p => List.find? p coef.entries)
  funext e
  simp

theorem find?_blocks (b : Nat → R) (c : Nat → SpVec R) (r i n : Nat) :
    ((List.range n).flatMap (fun k => column_entries k (b k) (c k))).find?
        (fun e => e.1 == r && e.2.1 == i)
      = if i < n then (column_entries i (b i) (c i)).find? (fun e => e.1 == r && e.2.1 == i)
        else none := by
  induction n with
  | zero => simp
  | succ n ih =>
    rw [List.range_succ, List.flatMap_append, List.find?_append, ih]
    simp only [List.flatMap_cons, List.flatMap_nil, List.append_nil]
    by_cases h : i < n
    · have h2 : i < n + 1 := by omega
      rw [if_pos h, if_pos h2, find?_column_entries_other n i r (by omega), Option.or_none]
    · rw [if_neg h, Option.none_or]
      by_cases h3 : i = n
      · subst h3; simp
      · rw [if_neg (by omega), find?_column_entries_other n i r h3]

/-- What the path loop leaves in the matrix and the count vector. -/
theorem final_beta [Field R] (E : Env R δ σ) (x_ : MatrixXd R) (y_ : VectorXd R)
    (lambda_ : List R) (nlambda_ : Nat) (lmin_ratio_ : R) (standardize_ intercept_ : Bool)
    (opts_ : Opts R) (sprad : R) :
    (final E x_ y_ lambda_ nlambda_ lmin_ratio_ standardize_ intercept_ opts_ sprad).beta.entries
        = (List.range (path E x_ y_ lambda_ nlambda_ lmin_ratio_ standardize_ intercept_ opts_
            sprad).length).flatMap (fun i =>
            column_entries i
              (recovered_at E x_ y_ lambda_ nlambda_ lmin_ratio_ standardize_ intercept_ opts_
                sprad i).1
              (recovered_at E x_ y_ lambda_ nlambda_ lmin_ratio_ standardize_ intercept_ opts_
                sprad i).2)
      ∧ (final E x_ y_ lambda_ nlambda_ lmin_ratio_ standardize_ intercept_ opts_
          sprad).beta.rows = x_.cols + 1
      ∧ (final E x_ y_ lambda_ nlambda_ lmin_ratio_ standardize_ intercept_ opts_
          sprad).beta.cols
          = (path E x_ y_ lambda_ nlambda_ lmin_ratio_ standardize_ intercept_ opts_
              sprad).length
      ∧ (final E x_ y_ lambda_ nlambda_ lmin_ratio_ standardize_ intercept_ opts_
          sprad).niter.length
          = (path E x_ y_ lambda_ nlambda_ lmin_ratio_ standardize_ intercept_ opts_
              sprad).length := by
  obtain ⟨h1, h2, h3, h4⟩ := loop_run_beta E (standardized E x_ y_ standardize_ intercept_).1
    x_.rows (path E x_ y_ lambda_ nlambda_ lmin_ratio_ standardize_ intercept_ opts_ sprad)
    opts_.rho_ratio sprad opts_.maxit
    { solver := solver0 E x_ y_ standardize_ intercept_ opts_ sprad
      beta := SpMat.create (x_.cols + 1)
        (path E x_ y_ lambda_ nlambda_ lmin_ratio_ standardize_ intercept_ opts_ sprad).length
      niter := List.replicate
        (path E x_ y_ lambda_ nlambda_ lmin_ratio_ standardize_ intercept_ opts_ sprad).length 0 }
    (path E x_ y_ lambda_ nlambda_ lmin_ratio_ standardize_ intercept_ opts_ sprad).length
  refine ⟨?_, h2, h3, ?_⟩
  · unfold final
    rw [h1]
    simp only [SpMat.create, List.nil_append]
    rfl
  · unfold final
    rw [h4]
    simp

theorem coeff_write_beta_matrix [Zero R] (betas : SpMat R) (col : Nat) (beta0 : R)
    (coef : SpVec R) (hcol : ∀ e ∈ betas.entries, e.2.1 ≠ col) :
    (write_beta_matrix betas col beta0 coef).coeff 0 col = beta0
      ∧ (∀ j, (write_beta_matrix betas col beta0 coef).coeff (j + 1) col = coef.coeff j)
      ∧ (∀ r c, c ≠ col → (write_beta_matrix betas col beta0 coef).coeff r c
          = betas.coeff r c) := by
  have hnone : ∀ r, betas.entries.find? (fun e => e.1 == r && e.2.1 == col) = none := by
    intro r
    rw [List.find?_eq_none]
    intro e he
    simp [hcol e he]
  refine ⟨?_, ?_, ?_⟩
  · unfold SpMat.coeff
    rw [write_beta_matrix_entries, List.find?_append, hnone, Option.none_or,
      find?_column_entries_zero]
  · intro j
    unfold SpMat.coeff SpVec.coeff
    rw [write_beta_matrix_entries, List.find?_append, hnone, Option.none_or,
      find?_column_entries_succ]
    cases coef.entries.find? (fun e => e.1 == j) <;> rfl
  · intro r c hc
    unfold SpMat.coeff
    rw [write_beta_matrix_entries, List.find?_append,
      find?_column_entries_other col c r hc, Option.or_none]

/-- Column `i` of the matrix the loop leaves holds the solution recovered for index `i`. -/
theorem coeff_final_beta [Field R] (E : Env R δ σ) (x_ : MatrixXd R) (y_ : VectorXd R)
    (lambda_ : List R) (nlambda_ : Nat) (lmin_ratio_ : R) (standardize_ intercept_ : Bool)
    (opts_ : Opts R) (sprad : R) (i : Nat)
    (hi : i < (path E x_ y_ lambda_ nlambda_ lmin_ratio_ standardize_ intercept_ opts_
      sprad).length) :
    (final E x_ y_ lambda_ nlambda_ lmin_ratio_ standardize_ intercept_ opts_
        sprad).beta.coeff 0 i
        = (recovered_at E x_ y_ lambda_ nlambda_ lmin_ratio_ standardize_ intercept_ opts_
            sprad i).1
      ∧ ∀ j, (final E x_ y_ lambda_ nlambda_ lmin_ratio_ standardize_ intercept_ opts_
          sprad).beta.coeff (j + 1) i
        = (recovered_at E x_ y_ lambda_ nlambda_ lmin_ratio_ standardize_ intercept_ opts_
            sprad i).2.coeff j := by
  have h := (final_beta E x_ y_ lambda_ nlambda_ lmin_ratio_ standardize_ intercept_ opts_
    sprad).1
  constructor
  · unfold SpMat.coeff
    rw [h, find?_blocks, if_pos hi, find?_column_entries_zero]
  · intro j
    unfold SpMat.coeff SpVec.coeff
    rw [h, find?_blocks, if_pos hi, find?_column_entries_succ]
    cases (recovered_at E x_ y_ lambda_ nlambda_ lmin_ratio_ standardize_ intercept_ opts_
      sprad i).2.entries.find? (fun e => e.1 == j) <;> rfl

theorem filter_column_entries (col i : Nat) (beta0 : R) (coef : SpVec R) :
    (column_entries col beta0 coef).filter (fun e => e.2.1 == i)
      = if col = i then column_entries col beta0 coef else [] := by
  by_cases h : col = i
  · rw [if_pos h, List.filter_eq_self]
    intro e he
    simp only [column_entries, List.mem_cons, List.mem_map] at he
    rcases he with rfl | ⟨a, _, rfl⟩ <;> simp [h]
  · rw [if_neg h, List.filter_eq_nil_iff]
    intro e he
    simp only [column_entries, List.mem_cons, List.mem_map] at he
    rcases he with rfl | ⟨a, _, rfl⟩ <;> simp [h]

theorem filter_blocks (b : Nat → R) (c : Nat → SpVec R) (i n : Nat) :
    ((List.range n).flatMap (fun k => column_entries k (b k) (c k))).filter
        (fun e => e.2.1 == i)
      = if i < n then column_entries i (b i) (c i) else [] := by
  induction n with
  | zero => simp
  | succ n ih =>
    rw [List.range_succ, List.flatMap_append, List.filter_append, ih]
    simp only [List.flatMap_cons, List.flatMap_nil, List.append_nil]
    rw [filter_column_entries]
    by_cases h : i < n
    · rw [if_pos h, if_pos (by omega : i < n + 1), if_neg (by omega), List.append_nil]
    · rw [if_neg h, List.nil_append]
      by_cases h3 : n = i
      · subst h3; simp
      · rw [if_neg h3, if_neg (by omega)]

theorem mem_blocks (b : Nat → R) (c : Nat → SpVec R) (n p : Nat)
    (hwf : ∀ k, k < n → ∀ e ∈ (c k).entries, e.1 < p) (e : Nat × Nat × R)
    (he : e ∈ (List.range n).flatMap (fun k => column_entries k (b k) (c k))) :
    e.1 ≤ p ∧ e.2.1 < n := by
  rw [List.mem_flatMap] at he
  obtain ⟨k, hk, hek⟩ := he
  rw [List.mem_range] at hk
  simp only [column_entries, List.mem_cons, List.mem_map] at hek
  rcases hek with rfl | ⟨a, ha, rfl⟩
  · exact ⟨Nat.zero_le _, hk⟩
  · exact ⟨hwf k hk a ha, hk⟩

theorem nodup_positions_column (col : Nat) (beta0 : R) (coef : SpVec R)
    (hnd : (coef.entries.map Prod.fst).Nodup) :
    ((column_entries col beta0 coef).map (fun e => (e.1, e.2.1))).Nodup := by
  unfold column_entries
  rw [List.map_cons, List.nodup_cons]
  constructor
  · simp
  · have : (coef.entries.map (fun e => (e.1 + 1, col, e.2))).map (fun e => (e.1, e.2.1))
        = (coef.entries.map Prod.fst).map (fun j => (j + 1, col)) := by
      simp [List.map_map, Function.comp_def]
    rw [this]
    apply hnd.map
    intro a b hab
    simpa using hab

theorem nodup_positions_blocks (b : Nat → R) (c : Nat → SpVec R) (n : Nat)
    (hwf : ∀ k, k < n → ((c k).entries.map Prod.fst).Nodup) :
    (((List.range n).flatMap (fun k => column_entries k (b k) (c k))).map
      (fun e => (e.1, e.2.1))).Nodup := by
  rw [List.map_flatMap, List.nodup_flatMap]
  constructor
  · intro k hk
    exact nodup_positions_column k (b k) (c k) (hwf k (List.mem_range.mp hk))
  · apply (List.nodup_range n).imp
    intro k1 k2 hne
    intro x h1 h2
    simp only [column_entries, List.map_cons, List.map_map, List.mem_cons, List.mem_map,
      Function.comp] at h1 h2
    have e1 : x.2 = k1 := by
      rcases h1 with rfl | ⟨a, _, rfl⟩ <;> rfl
    have e2 : x.2 = k2 := by
      rcases h2 with rfl | ⟨a, _, rfl⟩ <;> rfl
    exact hne (e1.symm.trans e2)

theorem path_explicit [Field R] (E : Env R δ σ) (x_ : MatrixXd R) (y_ : VectorXd R)
    (lambda_ : List R) (nlambda_ : Nat) (lmin_ratio_ : R) (standardize_ intercept_ : Bool)
    (opts_ : Opts R) (sprad : R) (hL : 1 ≤ lambda_.length) :
    path E x_ y_ lambda_ nlambda_ lmin_ratio_ standardize_ intercept_ opts_ sprad = lambda_ := by
  unfold path lambda_path
  rw [if_neg (by omega)]

/-- With an explicit sequence the loop does not depend on the requested count, on the ratio
or on `lambda_max`. -/
theorem final_explicit [Field R] (E : Env R δ σ) (x_ : MatrixXd R) (y_ : VectorXd R)
    (lambda_ : List R) (nlambda_ : Nat) (lmin_ratio_ : R) (standardize_ intercept_ : Bool)
    (opts_ : Opts R) (sprad : R) (hL : 1 ≤ lambda_.length) (n2 : Nat) (r2 : R) (f : σ → R) :
    final (withLambdaMax E f) x_ y_ lambda_ n2 r2 standardize_ intercept_ opts_ sprad
      = final E x_ y_ lambda_ nlambda_ lmin_ratio_ standardize_ intercept_ opts_ sprad := by
  unfold final
  rw [path_explicit (withLambdaMax E f) x_ y_ lambda_ n2 r2 standardize_ intercept_ opts_ sprad
      hL,
    path_explicit E x_ y_ lambda_ nlambda_ lmin_ratio_ standardize_ intercept_ opts_ sprad hL]
  rfl

theorem withLambdaMax_self (E : Env R δ σ) : withLambdaMax E E.solver.lambda_max = E := rfl

/-- Result of a call with the traced solver, with the loop's matrix and counts. -/
theorem admm_lasso_traced_full [Field R] (E : Env R δ σ) (x_ : MatrixXd R) (y_ : VectorXd R)
    (lambda_ : List R) (nlambda_ : Nat) (lmin_ratio_ : R) (standardize_ intercept_ : Bool)
    (opts_ : Opts R) (sprad : R)
    (hsp : max_eigenvalue E.svds_d (standardized E x_ y_ standardize_ intercept_).2.1
      = .ok sprad) :
    ∃ out s,
      admm_lasso (tracedEnv E) x_ y_ lambda_ nlambda_ lmin_ratio_ standardize_ intercept_ opts_
        = .ok (out, (s, (final (tracedEnv E) x_ y_ lambda_ nlambda_ lmin_ratio_ standardize_
            intercept_ opts_ sprad).solver.2))
      ∧ out.lambda
          = path E x_ y_ lambda_ nlambda_ lmin_ratio_ standardize_ intercept_ opts_ sprad
      ∧ out.beta = (final (tracedEnv E) x_ y_ lambda_ nlambda_ lmin_ratio_ standardize_
          intercept_ opts_ sprad).beta
      ∧ out.niter = (final (tracedEnv E) x_ y_ lambda_ nlambda_ lmin_ratio_ standardize_
          intercept_ opts_ sprad).niter :=
  ⟨_, _, admm_lasso_ok_sprad (tracedEnv E) x_ y_ lambda_ nlambda_ lmin_ratio_ standardize_
    intercept_ opts_ sprad hsp, rfl, rfl, rfl⟩

/-- An error of `max_eigenvalue` is the result of the call. -/
theorem admm_lasso_error_sprad [Field R] (E : Env R δ σ) (x_ : MatrixXd R) (y_ : VectorXd R)
    (lambda_ : List R) (nlambda_ : Nat) (lmin_ratio_ : R) (standardize_ intercept_ : Bool)
    (opts_ : Opts R) (e : String)
    (hsp : max_eigenvalue E.svds_d (standardized E x_ y_ standardize_ intercept_).2.1
      = .error e) :
    admm_lasso E x_ y_ lambda_ nlambda_ lmin_ratio_ standardize_ intercept_ opts_
      = .error e := by
  unfold admm_lasso
  simp only [standardized] at hsp
  simp only [hsp]

end Helpers

/-! ## The claims -/

section Claims

variable {R δ σ : Type}

/-- Claim C4. When `max_eigenvalue` returns `sprad`, the call returns; the returned `lambda` is
the supplied sequence, or the generated one when none is supplied, as it stands (not
rescaled); and for every path index `i` the solver call number `2 * i` is `init` (for
`i = 0`) or `init_warm` (for `i > 0`) with the strength `lambda[i] * n / scaleY`, where
`lambda[i]` is the returned value, followed by `solve(maxit)`. -/
theorem C4_internal_lambda [Field R] (E : Env R δ σ) (x_ : MatrixXd R) (y_ : VectorXd R)
    (lambda_ : List R) (nlambda_ : Nat) (lmin_ratio_ : R) (standardize_ intercept_ : Bool)
    (opts_ : Opts R) (sprad : R)
    (hsp : max_eigenvalue E.svds_d (standardized E x_ y_ standardize_ intercept_).2.1
      = .ok sprad) :
    ∃ out s log,
      admm_lasso (tracedEnv E) x_ y_ lambda_ nlambda_ lmin_ratio_ standardize_ intercept_ opts_
        = .ok (out, (s, log))
      ∧ out.lambda =
          (if lambda_.length < 1 then
            (setLinSpaced nlambda_
              (E.log (lmax E x_ y_ standardize_ intercept_ opts_ sprad))
              (E.log (lmin_ratio_ * lmax E x_ y_ standardize_ intercept_ opts_ sprad))).map E.exp
          else lambda_)
      ∧ log.length = 2 * out.lambda.length
      ∧ ∀ i, i < out.lambda.length →
          log[2 * i]? = some
            (if i = 0 then
              Call.init
                (out.lambda.getD i 0 * (x_.rows : R) / scaleY E x_ y_ standardize_ intercept_)
                (out.lambda.getD i 0 * (x_.rows : R) / scaleY E x_ y_ standardize_ intercept_
                  / (opts_.rho_ratio * sprad))
            else
              Call.init_warm
                (out.lambda.getD i 0 * (x_.rows : R) / scaleY E x_ y_ standardize_ intercept_))
          ∧ log[2 * i + 1]? = some (Call.solve opts_.maxit) := by
  obtain ⟨out, s, log, hrun, hlam, hlog⟩ := admm_lasso_traced E x_ y_ lambda_ nlambda_
    lmin_ratio_ standardize_ intercept_ opts_ sprad hsp
  refine ⟨out, s, log, hrun, by rw [hlam]; rfl, ?_, ?_⟩
  · rw [hlog, final_traced_log_uniform, length_flatMap_pair, hlam]
  · intro i hi
    rw [hlam] at hi
    rw [hlog, final_traced_log_uniform, hlam]
    obtain ⟨h1, h2⟩ := getElem?_flatMap_pair
      (fun i => if i = 0 then
          Call.init
            (ilambda E x_ y_ lambda_ nlambda_ lmin_ratio_ standardize_ intercept_ opts_ sprad 0)
            (ilambda E x_ y_ lambda_ nlambda_ lmin_ratio_ standardize_ intercept_ opts_ sprad 0
              / (opts_.rho_ratio * sprad))
        else
          Call.init_warm
            (ilambda E x_ y_ lambda_ nlambda_ lmin_ratio_ standardize_ intercept_ opts_ sprad i))
      (fun _ => Call.solve opts_.maxit) _ i hi
    refine ⟨?_, h2⟩
    rw [h1]
    by_cases h0 : i = 0
    · subst h0; rfl
    · simp only [h0, if_false]; rfl

/-- Witness of C4: the explicit path `[3, 2, 1]` on a two-by-one design. -/
theorem C4_internal_lambda_witness :
    ∃ out s log,
      admm_lasso (tracedEnv (echoEnv Real.exp Real.log (.ok 2) 1)) ⟨2, 1, [1, 1]⟩ [1, 2]
          [3, 2, 1] 0 (1 / 2) false true ⟨7, 0, 0, 1⟩
        = .ok (out, (s, log))
      ∧ out.lambda =
          (if ([3, 2, 1] : List ℝ).length < 1 then
            (setLinSpaced 0
              (Real.log (lmax (echoEnv Real.exp Real.log (.ok 2) 1) ⟨2, 1, [1, 1]⟩ [1, 2]
                false true ⟨7, 0, 0, 1⟩ (2 * 2)))
              (Real.log (1 / 2 * lmax (echoEnv Real.exp Real.log (.ok 2) 1) ⟨2, 1, [1, 1]⟩ [1, 2]
                false true ⟨7, 0, 0, 1⟩ (2 * 2)))).map Real.exp
          else [3, 2, 1])
      ∧ log.length = 2 * out.lambda.length
      ∧ ∀ i, i < out.lambda.length →
          log[2 * i]? = some
            (if i = 0 then
              Call.init
                (out.lambda.getD i 0 * ((2 : Nat) : ℝ)
                  / scaleY (echoEnv Real.exp Real.log (.ok 2) 1) ⟨2, 1, [1, 1]⟩ [1, 2] false true)
                (out.lambda.getD i 0 * ((2 : Nat) : ℝ)
                  / scaleY (echoEnv Real.exp Real.log (.ok 2) 1) ⟨2, 1, [1, 1]⟩ [1, 2] false true
                  / ((1 : ℝ) * (2 * 2)))
            else
              Call.init_warm
                (out.lambda.getD i 0 * ((2 : Nat) : ℝ)
                  / scaleY (echoEnv Real.exp Real.log (.ok 2) 1) ⟨2, 1, [1, 1]⟩ [1, 2]
                    false true))
          ∧ log[2 * i + 1]? = some (Call.solve 7) :=
  C4_internal_lambda (echoEnv Real.exp Real.log (.ok 2) 1) ⟨2, 1, [1, 1]⟩ [1, 2] [3, 2, 1] 0
    (1 / 2) false true ⟨7, 0, 0, 1⟩ (2 * 2) rfl

/-- Claim C3. Over the reals, with no lambda supplied, `count ≥ 1`, `minRatio` in `(0, 1)`,
`n > 0`, `scaleY > 0` and `lambda_max() > 0`, the call returns a path of exactly `count`
values, all strictly positive, strictly decreasing, and for `count ≥ 2` its value at index `i`
is `lmax * minRatio ^ (i / (count - 1))` with `lmax = lambda_max() / n * scaleY`. -/
theorem C3_generated_path_decreasing (E : Env ℝ δ σ) (x_ : MatrixXd ℝ) (y_ : VectorXd ℝ)
    (nlambda_ : Nat) (lmin_ratio_ : ℝ) (standardize_ intercept_ : Bool)
    (opts_ : Opts ℝ) (sprad : ℝ) (hexp : E.exp = Real.exp) (hlog : E.log = Real.log)
    (hsp : max_eigenvalue E.svds_d (standardized E x_ y_ standardize_ intercept_).2.1
      = .ok sprad)
    (hn : 0 < x_.rows) (hsY : 0 < scaleY E x_ y_ standardize_ intercept_)
    (hlm : 0 < E.solver.lambda_max (solver0 E x_ y_ standardize_ intercept_ opts_ sprad))
    (hr0 : 0 < lmin_ratio_) (hr1 : lmin_ratio_ < 1) (hc : 1 ≤ nlambda_) :
    ∃ out s,
      admm_lasso E x_ y_ [] nlambda_ lmin_ratio_ standardize_ intercept_ opts_ = .ok (out, s)
      ∧ out.lambda.length = nlambda_
      ∧ (∀ v ∈ out.lambda, 0 < v)
      ∧ (∀ i, i + 1 < nlambda_ → out.lambda.getD (i + 1) 0 < out.lambda.getD i 0)
      ∧ (2 ≤ nlambda_ → ∀ i, i < nlambda_ →
          out.lambda.getD i 0
            = E.solver.lambda_max (solver0 E x_ y_ standardize_ intercept_ opts_ sprad)
                / (x_.rows : ℝ) * scaleY E x_ y_ standardize_ intercept_
              * lmin_ratio_ ^ ((i : ℝ) / ((nlambda_ : ℝ) - 1))) := by
  have hl := lmax_pos E x_ y_ standardize_ intercept_ opts_ sprad hn hsY hlm
  have hget := path_auto_getD E x_ y_ nlambda_ lmin_ratio_ standardize_ intercept_ opts_ sprad
    hexp hlog hl hr0
  refine ⟨_, _, admm_lasso_ok_sprad E x_ y_ [] nlambda_ lmin_ratio_ standardize_ intercept_
    opts_ sprad hsp, ?_, ?_, ?_, ?_⟩
  · show (path E x_ y_ [] nlambda_ lmin_ratio_ standardize_ intercept_ opts_ sprad).length = _
    rw [path_auto E x_ y_ nlambda_ lmin_ratio_ standardize_ intercept_ opts_ sprad hexp hlog,
      List.length_map, setLinSpaced_length]
  · intro v hv
    change v ∈ path E x_ y_ [] nlambda_ lmin_ratio_ standardize_ intercept_ opts_ sprad at hv
    rw [path_auto E x_ y_ nlambda_ lmin_ratio_ standardize_ intercept_ opts_ sprad hexp hlog,
      List.mem_map] at hv
    obtain ⟨a, _, rfl⟩ := hv
    exact Real.exp_pos a
  · intro i hi
    show (path E x_ y_ [] nlambda_ lmin_ratio_ standardize_ intercept_ opts_ sprad).getD _ 0
      < (path E x_ y_ [] nlambda_ lmin_ratio_ standardize_ intercept_ opts_ sprad).getD _ 0
    rw [hget (by omega) (i + 1) hi, hget (by omega) i (by omega)]
    have hden : (0 : ℝ) < (nlambda_ : ℝ) - 1 := by
      have : (2 : ℝ) ≤ (nlambda_ : ℝ) := by exact_mod_cast (by omega : 2 ≤ nlambda_)
      linarith
    have hexpo : (i : ℝ) / ((nlambda_ : ℝ) - 1) < ((i + 1 : Nat) : ℝ) / ((nlambda_ : ℝ) - 1) := by
      apply div_lt_div_of_pos_right _ hden
      exact_mod_cast Nat.lt_succ_self i
    exact mul_lt_mul_of_pos_left (Real.rpow_lt_rpow_of_exponent_gt hr0 hr1 hexpo) hl
  · intro h2 i hi
    exact hget h2 i hi

/-- Witness of C3: three generated points from `lambda_max() = 4` with ratio one half. -/
theorem C3_generated_path_decreasing_witness :
    ∃ out s,
      admm_lasso (echoEnv Real.exp Real.log (.ok 1) 4) ⟨2, 1, [1, 1]⟩ [1, 0] [] 3 (1 / 2)
          true true ⟨10, 0, 0, 1⟩ = .ok (out, s)
      ∧ out.lambda.length = 3
      ∧ (∀ v ∈ out.lambda, 0 < v)
      ∧ (∀ i, i + 1 < 3 → out.lambda.getD (i + 1) 0 < out.lambda.getD i 0)
      ∧ (2 ≤ 3 → ∀ i, i < 3 →
          out.lambda.getD i 0
            = (echoEnv Real.exp Real.log (.ok 1) 4).solver.lambda_max
                  (solver0 (echoEnv Real.exp Real.log (.ok 1) 4) ⟨2, 1, [1, 1]⟩ [1, 0] true true
                    ⟨10, 0, 0, 1⟩ (1 * 1))
                / ((2 : Nat) : ℝ)
                * scaleY (echoEnv Real.exp Real.log (.ok 1) 4) ⟨2, 1, [1, 1]⟩ [1, 0] true true
              * (1 / 2 : ℝ) ^ ((i : ℝ) / (((3 : Nat) : ℝ) - 1))) :=
  C3_generated_path_decreasing (echoEnv Real.exp Real.log (.ok 1) 4) ⟨2, 1, [1, 1]⟩ [1, 0] 3
    (1 / 2) true true ⟨10, 0, 0, 1⟩ (1 * 1) rfl rfl rfl (by decide)
    (by simp [scaleY, echoEnv, unitStd]) (by simp [echoEnv, echoSolver]) (by norm_num)
    (by norm_num) (by decide)

/-- Claim C2 as stated fails for `count = 1`. With no lambda supplied, `count = 1`,
`minRatio = 1/2`, `n = 1`, `scaleY = 1` and `lambda_max() = 1`, the call returns the path
`[1/2]`, whose first value is not `lmax = 1`. -/
theorem C2_first_value_counterexample :
    ∃ out s,
      admm_lasso (echoEnv Real.exp Real.log (.ok 1) 1) ⟨1, 1, [1]⟩ [1] [] 1 (1 / 2)
          true true ⟨10, 0, 0, 1⟩ = .ok (out, s)
      ∧ out.lambda = [1 / 2]
      ∧ lmax (echoEnv Real.exp Real.log (.ok 1) 1) ⟨1, 1, [1]⟩ [1] true true ⟨10, 0, 0, 1⟩ (1 * 1)
          = 1
      ∧ out.lambda.head?
          ≠ some (lmax (echoEnv Real.exp Real.log (.ok 1) 1) ⟨1, 1, [1]⟩ [1] true true
              ⟨10, 0, 0, 1⟩ (1 * 1)) := by
  have hl : lmax (echoEnv Real.exp Real.log (.ok 1) 1) ⟨1, 1, [1]⟩ [1] true true
      ⟨10, 0, 0, 1⟩ (1 * 1) = 1 := by
    simp [lmax, scaleY, echoEnv, echoSolver, unitStd]
  have hp := path_auto_one (echoEnv Real.exp Real.log (.ok 1) 1) ⟨1, 1, [1]⟩ [1] (1 / 2)
    true true ⟨10, 0, 0, 1⟩ (1 * 1) rfl rfl (by rw [hl]; norm_num) (by norm_num)
  have h12 : (1 / 2 : ℝ) * 1 = 1 / 2 := by norm_num
  rw [hl, h12] at hp
  refine ⟨_, _, admm_lasso_ok_sprad (echoEnv Real.exp Real.log (.ok 1) 1) ⟨1, 1, [1]⟩ [1] [] 1
    (1 / 2) true true ⟨10, 0, 0, 1⟩ (1 * 1) rfl, hp, hl, ?_⟩
  show (path (echoEnv Real.exp Real.log (.ok 1) 1) ⟨1, 1, [1]⟩ [1] [] 1 (1 / 2)
    true true ⟨10, 0, 0, 1⟩ (1 * 1)).head? ≠ _
  rw [hp, hl]
  norm_num

/-- Claim C2, amended. Over the reals, with no lambda supplied, `count ≥ 1`, `minRatio` in
`(0, 1)`, `n > 0`, `scaleY > 0` and `lambda_max() > 0`, the call returns a path whose last
value is `minRatio * lmax`, with `lmax = lambda_max() / n * scaleY`; its first value is `lmax`
when `count ≥ 2`, and for `count = 1` the path is the single value `minRatio * lmax`. -/
theorem C2_generated_path_endpoints (E : Env ℝ δ σ) (x_ : MatrixXd ℝ) (y_ : VectorXd ℝ)
    (nlambda_ : Nat) (lmin_ratio_ : ℝ) (standardize_ intercept_ : Bool)
    (opts_ : Opts ℝ) (sprad : ℝ) (hexp : E.exp = Real.exp) (hlog : E.log = Real.log)
    (hsp : max_eigenvalue E.svds_d (standardized E x_ y_ standardize_ intercept_).2.1
      = .ok sprad)
    (hn : 0 < x_.rows) (hsY : 0 < scaleY E x_ y_ standardize_ intercept_)
    (hlm : 0 < E.solver.lambda_max (solver0 E x_ y_ standardize_ intercept_ opts_ sprad))
    (hr0 : 0 < lmin_ratio_) (_hr1 : lmin_ratio_ < 1) (hc : 1 ≤ nlambda_) :
    ∃ out s,
      admm_lasso E x_ y_ [] nlambda_ lmin_ratio_ standardize_ intercept_ opts_ = .ok (out, s)
      ∧ out.lambda.getLast?
          = some (lmin_ratio_
              * (E.solver.lambda_max (solver0 E x_ y_ standardize_ intercept_ opts_ sprad)
                  / (x_.rows : ℝ) * scaleY E x_ y_ standardize_ intercept_))
      ∧ (2 ≤ nlambda_ →
          out.lambda.head?
            = some (E.solver.lambda_max (solver0 E x_ y_ standardize_ intercept_ opts_ sprad)
                / (x_.rows : ℝ) * scaleY E x_ y_ standardize_ intercept_))
      ∧ (nlambda_ = 1 →
          out.lambda
            = [lmin_ratio_
                * (E.solver.lambda_max (solver0 E x_ y_ standardize_ intercept_ opts_ sprad)
                    / (x_.rows : ℝ) * scaleY E x_ y_ standardize_ intercept_)]) := by
  have hl := lmax_pos E x_ y_ standardize_ intercept_ opts_ sprad hn hsY hlm
  obtain ⟨h1, h2⟩ := path_auto_endpoints E x_ y_ nlambda_ lmin_ratio_ standardize_ intercept_
    opts_ sprad hexp hlog hl hr0 hc
  refine ⟨_, _, admm_lasso_ok_sprad E x_ y_ [] nlambda_ lmin_ratio_ standardize_ intercept_
    opts_ sprad hsp, h1, h2, ?_⟩
  intro h
  subst h
  exact path_auto_one E x_ y_ lmin_ratio_ standardize_ intercept_ opts_ sprad hexp hlog hl hr0

/-- Witness of the amended C2: four generated points from `lambda_max() = 3`, ratio `1/10`. -/
theorem C2_generated_path_endpoints_witness :
    ∃ out s,
      admm_lasso (echoEnv Real.exp Real.log (.ok 1) 3) ⟨3, 1, [1, 1, 1]⟩ [1, 0, 2] [] 4 (1 / 10)
          true false ⟨10, 0, 0, 1⟩ = .ok (out, s)
      ∧ out.lambda.getLast?
          = some ((1 / 10 : ℝ)
              * ((echoEnv Real.exp Real.log (.ok 1) 3).solver.lambda_max
                  (solver0 (echoEnv Real.exp Real.log (.ok 1) 3) ⟨3, 1, [1, 1, 1]⟩ [1, 0, 2]
                    true false ⟨10, 0, 0, 1⟩ (1 * 1))
                  / ((3 : Nat) : ℝ)
                  * scaleY (echoEnv Real.exp Real.log (.ok 1) 3) ⟨3, 1, [1, 1, 1]⟩ [1, 0, 2]
                      true false))
      ∧ (2 ≤ 4 →
          out.lambda.head?
            = some ((echoEnv Real.exp Real.log (.ok 1) 3).solver.lambda_max
                  (solver0 (echoEnv Real.exp Real.log (.ok 1) 3) ⟨3, 1, [1, 1, 1]⟩ [1, 0, 2]
                    true false ⟨10, 0, 0, 1⟩ (1 * 1))
                / ((3 : Nat) : ℝ)
                * scaleY (echoEnv Real.exp Real.log (.ok 1) 3) ⟨3, 1, [1, 1, 1]⟩ [1, 0, 2]
                    true false))
      ∧ (4 = 1 →
          out.lambda
            = [(1 / 10 : ℝ)
                * ((echoEnv Real.exp Real.log (.ok 1) 3).solver.lambda_max
                    (solver0 (echoEnv Real.exp Real.log (.ok 1) 3) ⟨3, 1, [1, 1, 1]⟩ [1, 0, 2]
                      true false ⟨10, 0, 0, 1⟩ (1 * 1))
                    / ((3 : Nat) : ℝ)
                    * scaleY (echoEnv Real.exp Real.log (.ok 1) 3) ⟨3, 1, [1, 1, 1]⟩ [1, 0, 2]
                        true false)]) :=
  C2_generated_path_endpoints (echoEnv Real.exp Real.log (.ok 1) 3) ⟨3, 1, [1, 1, 1]⟩ [1, 0, 2]
    4 (1 / 10) true false ⟨10, 0, 0, 1⟩ (1 * 1) rfl rfl rfl (by decide)
    (by simp [scaleY, echoEnv, unitStd]) (by simp [echoEnv, echoSolver]) (by norm_num)
    (by norm_num) (by decide)

/-- Claim C9. Over the reals, with no lambda supplied, `count ≥ 2`, `minRatio` in `(0, 1)`,
`n > 0`, `scaleY > 0` and `lambda_max() > 0`, the call returns and its first solver call is
`init` with the strength `solver.lambda_max()` itself: the conversion to the external
convention and back is exact. -/
theorem C9_first_fit_at_lambda_max (E : Env ℝ δ σ) (x_ : MatrixXd ℝ) (y_ : VectorXd ℝ)
    (nlambda_ : Nat) (lmin_ratio_ : ℝ) (standardize_ intercept_ : Bool)
    (opts_ : Opts ℝ) (sprad : ℝ) (hexp : E.exp = Real.exp) (hlog : E.log = Real.log)
    (hsp : max_eigenvalue E.svds_d (standardized E x_ y_ standardize_ intercept_).2.1
      = .ok sprad)
    (hn : 0 < x_.rows) (hsY : 0 < scaleY E x_ y_ standardize_ intercept_)
    (hlm : 0 < E.solver.lambda_max (solver0 E x_ y_ standardize_ intercept_ opts_ sprad))
    (hr0 : 0 < lmin_ratio_) (_hr1 : lmin_ratio_ < 1) (hc : 2 ≤ nlambda_) :
    ∃ out s rho rest,
      admm_lasso (tracedEnv E) x_ y_ [] nlambda_ lmin_ratio_ standardize_ intercept_ opts_
        = .ok (out, (s,
            Call.init
              (E.solver.lambda_max (solver0 E x_ y_ standardize_ intercept_ opts_ sprad)) rho
            :: rest)) := by
  have hl := lmax_pos E x_ y_ standardize_ intercept_ opts_ sprad hn hsY hlm
  have hget := path_auto_getD E x_ y_ nlambda_ lmin_ratio_ standardize_ intercept_ opts_ sprad
    hexp hlog hl hr0 hc 0 (by omega)
  have hlen : (path E x_ y_ [] nlambda_ lmin_ratio_ standardize_ intercept_ opts_
      sprad).length = (nlambda_ - 1) + 1 := by
    rw [path_auto E x_ y_ nlambda_ lmin_ratio_ standardize_ intercept_ opts_ sprad hexp hlog,
      List.length_map, setLinSpaced_length]
    omega
  have h0 : ilambda E x_ y_ [] nlambda_ lmin_ratio_ standardize_ intercept_ opts_ sprad 0
      = E.solver.lambda_max (solver0 E x_ y_ standardize_ intercept_ opts_ sprad) := by
    have hn0 : (x_.rows : ℝ) ≠ 0 := by exact_mod_cast hn.ne'
    unfold ilambda
    rw [hget]
    unfold lmax
    simp only [Nat.cast_zero, zero_div, Real.rpow_zero, mul_one]
    field_simp
  obtain ⟨out, s, log, hrun, _, hlog⟩ := admm_lasso_traced E x_ y_ [] nlambda_
    lmin_ratio_ standardize_ intercept_ opts_ sprad hsp
  rw [(final_traced_log E x_ y_ [] nlambda_ lmin_ratio_ standardize_ intercept_
    opts_ sprad).2 _ hlen, h0] at hlog
  exact ⟨out, s, _, _, by rw [hrun, hlog]⟩

/-- Witness of C9: two generated points from `lambda_max() = 5` on a design with two rows. -/
theorem C9_first_fit_at_lambda_max_witness :
    ∃ out s rho rest,
      admm_lasso (tracedEnv (echoEnv Real.exp Real.log (.ok 1) 5)) ⟨2, 1, [1, 3]⟩ [1, 0] [] 2
          (1 / 4) true true ⟨10, 0, 0, 1⟩
        = .ok (out, (s,
            Call.init
              ((echoEnv Real.exp Real.log (.ok 1) 5).solver.lambda_max
                (solver0 (echoEnv Real.exp Real.log (.ok 1) 5) ⟨2, 1, [1, 3]⟩ [1, 0] true true
                  ⟨10, 0, 0, 1⟩ (1 * 1))) rho
            :: rest)) :=
  C9_first_fit_at_lambda_max (echoEnv Real.exp Real.log (.ok 1) 5) ⟨2, 1, [1, 3]⟩ [1, 0] 2
    (1 / 4) true true ⟨10, 0, 0, 1⟩ (1 * 1) rfl rfl rfl (by decide)
    (by simp [scaleY, echoEnv, unitStd]) (by simp [echoEnv, echoSolver]) (by norm_num)
    (by norm_num) (by decide)

/-- Claim C5. When an explicit lambda sequence of length `L ≥ 1` is supplied and `max_eigenvalue`
returns, the call returns with `lambda` equal to the supplied sequence, `niter` of length `L`
and `beta` of `p + 1` rows and `L` columns; the result is the same for every requested count
and ratio and for every `lambda_max` the solver may compute. -/
theorem C5_explicit_path_verbatim [Field R] (E : Env R δ σ) (x_ : MatrixXd R) (y_ : VectorXd R)
    (lambda_ : List R) (nlambda_ : Nat) (lmin_ratio_ : R) (standardize_ intercept_ : Bool)
    (opts_ : Opts R) (sprad : R)
    (hsp : max_eigenvalue E.svds_d (standardized E x_ y_ standardize_ intercept_).2.1
      = .ok sprad)
    (hL : 1 ≤ lambda_.length) :
    ∃ out s,
      admm_lasso E x_ y_ lambda_ nlambda_ lmin_ratio_ standardize_ intercept_ opts_
        = .ok (out, s)
      ∧ out.lambda = lambda_
      ∧ out.niter.length = lambda_.length
      ∧ out.beta.rows = x_.cols + 1
      ∧ out.beta.cols = lambda_.length
      ∧ (∀ (n2 : Nat) (r2 : R) (f : σ → R),
          admm_lasso (withLambdaMax E f) x_ y_ lambda_ n2 r2 standardize_ intercept_ opts_
            = .ok (out, s)) := by
  have hp := path_explicit E x_ y_ lambda_ nlambda_ lmin_ratio_ standardize_ intercept_ opts_
    sprad hL
  obtain ⟨_, h2, h3, h4⟩ := final_beta E x_ y_ lambda_ nlambda_ lmin_ratio_ standardize_
    intercept_ opts_ sprad
  rw [hp] at h3 h4
  refine ⟨_, _, admm_lasso_ok_sprad E x_ y_ lambda_ nlambda_ lmin_ratio_ standardize_
    intercept_ opts_ sprad hsp, hp, h4, h2, h3, ?_⟩
  intro n2 r2 f
  rw [admm_lasso_ok_sprad (withLambdaMax E f) x_ y_ lambda_ n2 r2 standardize_ intercept_
    opts_ sprad hsp,
    final_explicit E x_ y_ lambda_ nlambda_ lmin_ratio_ standardize_ intercept_ opts_ sprad hL,
    path_explicit (withLambdaMax E f) x_ y_ lambda_ n2 r2 standardize_ intercept_ opts_ sprad
      hL, hp]

/-- Witness of C5: the explicit path `[5, 3]` with a requested count of 100. -/
theorem C5_explicit_path_verbatim_witness :
    ∃ out s,
      admm_lasso (echoEnv Real.exp Real.log (.ok 3) 1) ⟨2, 1, [1, 2]⟩ [1, 0] [5, 3] 100 (1 / 2)
          true true ⟨10, 0, 0, 1⟩
        = .ok (out, s)
      ∧ out.lambda = [5, 3]
      ∧ out.niter.length = ([5, 3] : List ℝ).length
      ∧ out.beta.rows = 1 + 1
      ∧ out.beta.cols = ([5, 3] : List ℝ).length
      ∧ (∀ (n2 : Nat) (r2 : ℝ) (f : ℝ → ℝ),
          admm_lasso (withLambdaMax (echoEnv Real.exp Real.log (.ok 3) 1) f) ⟨2, 1, [1, 2]⟩
              [1, 0] [5, 3] n2 r2 true true ⟨10, 0, 0, 1⟩
            = .ok (out, s)) :=
  C5_explicit_path_verbatim (echoEnv Real.exp Real.log (.ok 3) 1) ⟨2, 1, [1, 2]⟩ [1, 0] [5, 3]
    100 (1 / 2) true true ⟨10, 0, 0, 1⟩ (3 * 3) rfl (by decide)

/-- Claim C6. After `write_beta_matrix(betas, col, beta0, coef)` on a matrix with nothing
stored in column `col`: `betas(0, col) = beta0`, `betas(j + 1, col) = coef(j)` for every `j`
(zero where `coef` stores nothing), and the entries of the other columns are unchanged.
Consequently, when `max_eigenvalue` returns, the call returns the lambda path of the call and
a `beta` of `p + 1` rows and one column per path point whose column `i` holds, for every
path index `i`, the intercept and the coefficients recovered after the solve for
`lambda[i]`. -/
theorem C6_beta_column_holds_solution [Field R] (E : Env R δ σ) (x_ : MatrixXd R)
    (y_ : VectorXd R) (lambda_ : List R) (nlambda_ : Nat) (lmin_ratio_ : R)
    (standardize_ intercept_ : Bool) (opts_ : Opts R) (sprad : R)
    (hsp : max_eigenvalue E.svds_d (standardized E x_ y_ standardize_ intercept_).2.1
      = .ok sprad) :
    (∀ (betas : SpMat R) (col : Nat) (beta0 : R) (coef : SpVec R),
      (∀ e ∈ betas.entries, e.2.1 ≠ col) →
        (write_beta_matrix betas col beta0 coef).coeff 0 col = beta0
        ∧ (∀ j, (write_beta_matrix betas col beta0 coef).coeff (j + 1) col = coef.coeff j)
        ∧ (∀ r c, c ≠ col →
            (write_beta_matrix betas col beta0 coef).coeff r c = betas.coeff r c))
    ∧ ∃ out s,
        admm_lasso E x_ y_ lambda_ nlambda_ lmin_ratio_ standardize_ intercept_ opts_
          = .ok (out, s)
        ∧ out.lambda
            = path E x_ y_ lambda_ nlambda_ lmin_ratio_ standardize_ intercept_ opts_ sprad
        ∧ (1 ≤ lambda_.length → out.lambda = lambda_)
        ∧ out.beta.rows = x_.cols + 1
        ∧ out.beta.cols
            = (path E x_ y_ lambda_ nlambda_ lmin_ratio_ standardize_ intercept_ opts_
                sprad).length
        ∧ ∀ i, i < (path E x_ y_ lambda_ nlambda_ lmin_ratio_ standardize_ intercept_ opts_
              sprad).length →
            out.beta.coeff 0 i
              = (recovered_at E x_ y_ lambda_ nlambda_ lmin_ratio_ standardize_ intercept_
                  opts_ sprad i).1
            ∧ ∀ j, out.beta.coeff (j + 1) i
              = (recovered_at E x_ y_ lambda_ nlambda_ lmin_ratio_ standardize_ intercept_
                  opts_ sprad i).2.coeff j := by
  obtain ⟨_, h2, h3, _⟩ := final_beta E x_ y_ lambda_ nlambda_ lmin_ratio_ standardize_
    intercept_ opts_ sprad
  refine ⟨fun betas col beta0 coef h => coeff_write_beta_matrix betas col beta0 coef h,
    _, _, admm_lasso_ok_sprad E x_ y_ lambda_ nlambda_ lmin_ratio_ standardize_
      intercept_ opts_ sprad hsp, rfl,
    fun h => path_explicit E x_ y_ lambda_ nlambda_ lmin_ratio_ standardize_ intercept_ opts_
      sprad h, h2, h3, ?_⟩
  intro i hi
  exact coeff_final_beta E x_ y_ lambda_ nlambda_ lmin_ratio_ standardize_ intercept_ opts_
    sprad i hi

/-- Witness of C6: the explicit path `[2, 1]` on a one-by-one design. -/
theorem C6_beta_column_holds_solution_witness :
    (∀ (betas : SpMat ℝ) (col : Nat) (beta0 : ℝ) (coef : SpVec ℝ),
      (∀ e ∈ betas.entries, e.2.1 ≠ col) →
        (write_beta_matrix betas col beta0 coef).coeff 0 col = beta0
        ∧ (∀ j, (write_beta_matrix betas col beta0 coef).coeff (j + 1) col = coef.coeff j)
        ∧ (∀ r c, c ≠ col →
            (write_beta_matrix betas col beta0 coef).coeff r c = betas.coeff r c))
    ∧ ∃ out s,
        admm_lasso (echoEnv Real.exp Real.log (.ok 1) 1) ⟨1, 1, [4]⟩ [2] [2, 1] 0 (1 / 2)
            true true ⟨10, 0, 0, 1⟩
          = .ok (out, s)
        ∧ out.lambda
            = path (echoEnv Real.exp Real.log (.ok 1) 1) ⟨1, 1, [4]⟩ [2] [2, 1] 0 (1 / 2) true
                true ⟨10, 0, 0, 1⟩ (1 * 1)
        ∧ (1 ≤ ([2, 1] : List ℝ).length → out.lambda = [2, 1])
        ∧ out.beta.rows = 1 + 1
        ∧ out.beta.cols
            = (path (echoEnv Real.exp Real.log (.ok 1) 1) ⟨1, 1, [4]⟩ [2] [2, 1] 0 (1 / 2) true true ⟨10, 0, 0, 1⟩ (1 * 1)).length
        ∧ ∀ i, i < (path (echoEnv Real.exp Real.log (.ok 1) 1) ⟨1, 1, [4]⟩ [2] [2, 1] 0 (1 / 2) true true ⟨10, 0, 0, 1⟩
              (1 * 1)).length →
            out.beta.coeff 0 i
              = (recovered_at (echoEnv Real.exp Real.log (.ok 1) 1) ⟨1, 1, [4]⟩ [2] [2, 1] 0
                  (1 / 2) true true ⟨10, 0, 0, 1⟩ (1 * 1) i).1
            ∧ ∀ j, out.beta.coeff (j + 1) i
              = (recovered_at (echoEnv Real.exp Real.log (.ok 1) 1) ⟨1, 1, [4]⟩ [2] [2, 1] 0
                  (1 / 2) true true ⟨10, 0, 0, 1⟩ (1 * 1) i).2.coeff j :=
  C6_beta_column_holds_solution (echoEnv Real.exp Real.log (.ok 1) 1) ⟨1, 1, [4]⟩ [2] [2, 1] 0
    (1 / 2) true true ⟨10, 0, 0, 1⟩ (1 * 1) rfl

/-- Claim C10. When `max_eigenvalue` returns and every recovered coefficient vector has size
`p` with distinct stored indices below `p`, the call returns the lambda path of the call and a
`beta` of `p + 1` rows and one column per path point whose stored entries (they are the
inserts performed, in order) all have a row at most `p` and a column below `nlambda`; no
position is stored twice; and for every path index `i` the entries stored in column `i` are
the intercept at row 0, stored whatever its value, followed by coefficient `j` at row `j + 1`,
so `1 + nnz` entries. -/
theorem C10_sparse_insert_safety [Field R] (E : Env R δ σ) (x_ : MatrixXd R)
    (y_ : VectorXd R) (lambda_ : List R) (nlambda_ : Nat) (lmin_ratio_ : R)
    (standardize_ intercept_ : Bool) (opts_ : Opts R) (sprad : R)
    (hsp : max_eigenvalue E.svds_d (standardized E x_ y_ standardize_ intercept_).2.1
      = .ok sprad)
    (hwf : ∀ i, i < (path E x_ y_ lambda_ nlambda_ lmin_ratio_ standardize_ intercept_ opts_
        sprad).length →
      (recovered_at E x_ y_ lambda_ nlambda_ lmin_ratio_ standardize_ intercept_ opts_
        sprad i).2.size = x_.cols
      ∧ ((recovered_at E x_ y_ lambda_ nlambda_ lmin_ratio_ standardize_ intercept_ opts_
        sprad i).2.entries.map Prod.fst).Nodup
      ∧ ∀ e ∈ (recovered_at E x_ y_ lambda_ nlambda_ lmin_ratio_ standardize_ intercept_ opts_
          sprad i).2.entries,
        e.1 < (recovered_at E x_ y_ lambda_ nlambda_ lmin_ratio_ standardize_ intercept_ opts_
          sprad i).2.size) :
    ∃ out s,
      admm_lasso E x_ y_ lambda_ nlambda_ lmin_ratio_ standardize_ intercept_ opts_
        = .ok (out, s)
      ∧ out.lambda
          = path E x_ y_ lambda_ nlambda_ lmin_ratio_ standardize_ intercept_ opts_ sprad
      ∧ (1 ≤ lambda_.length → out.lambda = lambda_)
      ∧ out.beta.rows = x_.cols + 1
      ∧ out.beta.cols
          = (path E x_ y_ lambda_ nlambda_ lmin_ratio_ standardize_ intercept_ opts_
              sprad).length
      ∧ (∀ e ∈ out.beta.entries,
          e.1 ≤ x_.cols ∧ e.1 < out.beta.rows
            ∧ e.2.1 < (path E x_ y_ lambda_ nlambda_ lmin_ratio_ standardize_ intercept_ opts_
                sprad).length
            ∧ e.2.1 < out.beta.cols)
      ∧ (out.beta.entries.map (fun e => (e.1, e.2.1))).Nodup
      ∧ ∀ i, i < (path E x_ y_ lambda_ nlambda_ lmin_ratio_ standardize_ intercept_ opts_
            sprad).length →
          out.beta.column i
            = (0, i, (recovered_at E x_ y_ lambda_ nlambda_ lmin_ratio_ standardize_
                  intercept_ opts_ sprad i).1)
              :: (recovered_at E x_ y_ lambda_ nlambda_ lmin_ratio_ standardize_
                  intercept_ opts_ sprad i).2.entries.map (fun e => (e.1 + 1, i, e.2))
          ∧ (out.beta.column i).length
            = 1 + (recovered_at E x_ y_ lambda_ nlambda_ lmin_ratio_ standardize_
                  intercept_ opts_ sprad i).2.entries.length := by
  obtain ⟨h1, h2, h3, _⟩ := final_beta E x_ y_ lambda_ nlambda_ lmin_ratio_ standardize_
    intercept_ opts_ sprad
  refine ⟨_, _, admm_lasso_ok_sprad E x_ y_ lambda_ nlambda_ lmin_ratio_ standardize_
    intercept_ opts_ sprad hsp, rfl,
    fun h => path_explicit E x_ y_ lambda_ nlambda_ lmin_ratio_ standardize_ intercept_ opts_
      sprad h, h2, h3, ?_, ?_, ?_⟩
  · intro e he
    change e ∈ (final E x_ y_ lambda_ nlambda_ lmin_ratio_ standardize_ intercept_ opts_
      sprad).beta.entries at he
    rw [h1] at he
    obtain ⟨hr, hc⟩ := mem_blocks _ _ _ x_.cols
      (fun k hk a ha => by
        have := (hwf k hk).2.2 a ha
        rw [(hwf k hk).1] at this
        exact this) e he
    refine ⟨hr, ?_, hc, ?_⟩
    · show e.1 < (final E x_ y_ lambda_ nlambda_ lmin_ratio_ standardize_ intercept_ opts_
        sprad).beta.rows
      rw [h2]; omega
    · show e.2.1 < (final E x_ y_ lambda_ nlambda_ lmin_ratio_ standardize_ intercept_ opts_
        sprad).beta.cols
      rw [h3]; exact hc
  · show ((final E x_ y_ lambda_ nlambda_ lmin_ratio_ standardize_ intercept_ opts_
      sprad).beta.entries.map (fun e => (e.1, e.2.1))).Nodup
    rw [h1]
    exact nodup_positions_blocks _ _ _ (fun k hk => (hwf k hk).2.1)
  · intro i hi
    have hcol : (final E x_ y_ lambda_ nlambda_ lmin_ratio_ standardize_ intercept_ opts_
        sprad).beta.column i
        = column_entries i
            (recovered_at E x_ y_ lambda_ nlambda_ lmin_ratio_ standardize_ intercept_ opts_
              sprad i).1
            (recovered_at E x_ y_ lambda_ nlambda_ lmin_ratio_ standardize_ intercept_ opts_
              sprad i).2 := by
      unfold SpMat.column
      rw [h1, filter_blocks, if_pos hi]
    constructor
    · exact hcol
    · show ((final E x_ y_ lambda_ nlambda_ lmin_ratio_ standardize_ intercept_ opts_
        sprad).beta.column i).length = _
      rw [hcol]
      simp [column_entries]
      omega

/-- Witness of C10: the explicit path `[2, 1]` on a three-by-one design. -/
theorem C10_sparse_insert_safety_witness :
    ∃ out s,
      admm_lasso (echoEnv Real.exp Real.log (.ok 1) 1) ⟨3, 1, [1, 2, 3]⟩ [1, 1, 1] [2, 1] 0
          (1 / 2) true true ⟨10, 0, 0, 1⟩
        = .ok (out, s)
      ∧ out.lambda
          = path (echoEnv Real.exp Real.log (.ok 1) 1) ⟨3, 1, [1, 2, 3]⟩ [1, 1, 1] [2, 1] 0
              (1 / 2) true true ⟨10, 0, 0, 1⟩ (1 * 1)
      ∧ (1 ≤ ([2, 1] : List ℝ).length → out.lambda = [2, 1])
      ∧ out.beta.rows = 1 + 1
      ∧ out.beta.cols
          = (path (echoEnv Real.exp Real.log (.ok 1) 1) ⟨3, 1, [1, 2, 3]⟩ [1, 1, 1] [2, 1] 0 (1 / 2) true true ⟨10, 0, 0, 1⟩
              (1 * 1)).length
      ∧ (∀ e ∈ out.beta.entries,
          e.1 ≤ 1 ∧ e.1 < out.beta.rows
            ∧ e.2.1 < (path (echoEnv Real.exp Real.log (.ok 1) 1) ⟨3, 1, [1, 2, 3]⟩ [1, 1, 1] [2, 1] 0 (1 / 2) true true
                ⟨10, 0, 0, 1⟩ (1 * 1)).length
            ∧ e.2.1 < out.beta.cols)
      ∧ (out.beta.entries.map (fun e => (e.1, e.2.1))).Nodup
      ∧ ∀ i, i < (path (echoEnv Real.exp Real.log (.ok 1) 1) ⟨3, 1, [1, 2, 3]⟩ [1, 1, 1] [2, 1] 0 (1 / 2) true true
            ⟨10, 0, 0, 1⟩ (1 * 1)).length →
          out.beta.column i
            = (0, i, (recovered_at (echoEnv Real.exp Real.log (.ok 1) 1) ⟨3, 1, [1, 2, 3]⟩
                  [1, 1, 1] [2, 1] 0 (1 / 2) true true ⟨10, 0, 0, 1⟩ (1 * 1) i).1)
              :: (recovered_at (echoEnv Real.exp Real.log (.ok 1) 1) ⟨3, 1, [1, 2, 3]⟩
                  [1, 1, 1] [2, 1] 0 (1 / 2) true true ⟨10, 0, 0, 1⟩ (1 * 1) i).2.entries.map
                    (fun e => (e.1 + 1, i, e.2))
          ∧ (out.beta.column i).length
            = 1 + (recovered_at (echoEnv Real.exp Real.log (.ok 1) 1) ⟨3, 1, [1, 2, 3]⟩
                  [1, 1, 1] [2, 1] 0 (1 / 2) true true ⟨10, 0, 0, 1⟩
                  (1 * 1) i).2.entries.length :=
  C10_sparse_insert_safety (echoEnv Real.exp Real.log (.ok 1) 1) ⟨3, 1, [1, 2, 3]⟩ [1, 1, 1]
    [2, 1] 0 (1 / 2) true true ⟨10, 0, 0, 1⟩ (1 * 1) rfl
    (fun i _ => by simp [recovered_at, recovered, echoEnv, echoSolver, unitStd])

/-- Claim C7 as stated fails. On an all-zero design for which `svds` reports the singular
value 0, `max_eigenvalue` returns 0, unfloored, and the call does not fail before the solver
is initialised: with `lambda[0] = 1`, `n = 2`, `scaleY = 1` and `rho_ratio = 1` it calls
`init(l0, l0 / (rho_ratio * sprad))` with `sprad = 0`, a quotient whose divisor `1 * 0` is
zero. The products `0 * 0` and `1 * 0` are zero in double arithmetic as well; nothing is
said here about the value of the quotient. -/
theorem C7_zero_spectral_radius_counterexample :
    max_eigenvalue (echoEnv Real.exp Real.log (.ok 0) 1).svds_d
        (standardized (echoEnv Real.exp Real.log (.ok 0) 1) ⟨2, 1, [0, 0]⟩ [1, 2] true true).2.1 = .ok 0
    ∧ (∃ out s rest,
        admm_lasso (tracedEnv (echoEnv Real.exp Real.log (.ok 0) 1)) ⟨2, 1, [0, 0]⟩ [1, 2] [1] 1
            (1 / 2) true true ⟨10, 0, 0, 1⟩
          = .ok (out, (s,
              Call.init (1 * ((2 : Nat) : ℝ) / 1) (1 * ((2 : Nat) : ℝ) / 1 / (1 * 0)) :: rest)))
    ∧ (1 : ℝ) * 0 = 0 := by
  have hsp : max_eigenvalue (echoEnv Real.exp Real.log (.ok 0) 1).svds_d
      (standardized (echoEnv Real.exp Real.log (.ok 0) 1) ⟨2, 1, [0, 0]⟩ [1, 2] true true).2.1 = .ok 0 := by
    simp [max_eigenvalue, echoEnv]
  refine ⟨hsp, ?_, mul_zero 1⟩
  obtain ⟨out, s, log, hrun, _, hlog⟩ := admm_lasso_traced
    (echoEnv Real.exp Real.log (.ok 0) 1) ⟨2, 1, [0, 0]⟩ [1, 2] [1] 1
    (1 / 2) true true ⟨10, 0, 0, 1⟩ 0 hsp
  rw [(final_traced_log (echoEnv Real.exp Real.log (.ok 0) 1) ⟨2, 1, [0, 0]⟩ [1, 2] [1] 1
    (1 / 2) true true ⟨10, 0, 0, 1⟩ 0).2 0 rfl] at hlog
  exact ⟨out, s, _, by rw [hrun, hlog]; rfl⟩

/-- Claim C7, amended. The driver neither floors nor checks the spectral radius. Whenever
`svds` reports a singular value `d`, zero included, `max_eigenvalue` returns `d * d` as it is
and, for a path that is not empty, the call does not fail: it returns, having passed to
`solver.init` the penalty parameter computed as `l0 / (rho_ratio * (d * d))` with
`l0 = lambda[0] * n / scaleY`, and no later call is an `init`. Nothing is claimed about the
sign or the finiteness of that quotient. -/
theorem C7_rho_from_unfloored_sprad [Field R] (E : Env R δ σ) (x_ : MatrixXd R)
    (y_ : VectorXd R) (lambda_ : List R) (nlambda_ : Nat) (lmin_ratio_ : R)
    (standardize_ intercept_ : Bool) (opts_ : Opts R) (d : R)
    (hsv : E.svds_d (standardized E x_ y_ standardize_ intercept_).2.1 = .ok d)
    (hne : 1 ≤ (path E x_ y_ lambda_ nlambda_ lmin_ratio_ standardize_ intercept_ opts_
      (d * d)).length) :
    max_eigenvalue E.svds_d (standardized E x_ y_ standardize_ intercept_).2.1 = .ok (d * d)
    ∧ ∃ out s rest,
      admm_lasso (tracedEnv E) x_ y_ lambda_ nlambda_ lmin_ratio_ standardize_ intercept_ opts_
        = .ok (out, (s,
            Call.init
              (out.lambda.getD 0 0 * (x_.rows : R) / scaleY E x_ y_ standardize_ intercept_)
              (out.lambda.getD 0 0 * (x_.rows : R) / scaleY E x_ y_ standardize_ intercept_
                / (opts_.rho_ratio * (d * d)))
            :: rest))
      ∧ out.lambda
          = path E x_ y_ lambda_ nlambda_ lmin_ratio_ standardize_ intercept_ opts_ (d * d)
      ∧ ∀ c ∈ rest, ∀ a b, c ≠ Call.init a b := by
  have hsp := max_eigenvalue_ok E.svds_d _ d hsv
  refine ⟨hsp, ?_⟩
  obtain ⟨out, s, log, hrun, hlam, hlog⟩ := admm_lasso_traced E x_ y_ lambda_ nlambda_
    lmin_ratio_ standardize_ intercept_ opts_ (d * d) hsp
  obtain ⟨k, hk⟩ : ∃ k, (path E x_ y_ lambda_ nlambda_ lmin_ratio_ standardize_ intercept_
      opts_ (d * d)).length = k + 1 := ⟨_, (Nat.sub_add_cancel hne).symm⟩
  rw [(final_traced_log E x_ y_ lambda_ nlambda_ lmin_ratio_ standardize_ intercept_
    opts_ (d * d)).2 k hk] at hlog
  have hil : ilambda E x_ y_ lambda_ nlambda_ lmin_ratio_ standardize_ intercept_ opts_
      (d * d) 0
      = out.lambda.getD 0 0 * (x_.rows : R) / scaleY E x_ y_ standardize_ intercept_ := by
    rw [hlam]; rfl
  rw [hil] at hlog
  refine ⟨out, s, _, by rw [hrun, hlog], hlam, ?_⟩
  intro c hc a b
  simp only [List.mem_cons, List.mem_flatMap, List.mem_range, List.mem_singleton,
    List.not_mem_nil, or_false] at hc
  rcases hc with rfl | ⟨j, _, rfl | rfl⟩ <;> simp

/-- Witness of the amended C7: the explicit path `[3, 1]` on an all-zero design with singular
value 0. -/
theorem C7_rho_from_unfloored_sprad_witness :
    max_eigenvalue (echoEnv Real.exp Real.log (.ok 0) 1).svds_d
        (standardized (echoEnv Real.exp Real.log (.ok 0) 1) ⟨3, 1, [0, 0, 0]⟩ [1, 2, 4] true true).2.1 = .ok (0 * 0)
    ∧ ∃ out s rest,
      admm_lasso (tracedEnv (echoEnv Real.exp Real.log (.ok 0) 1)) ⟨3, 1, [0, 0, 0]⟩ [1, 2, 4] [3, 1] 0 (1 / 2) true true
          ⟨10, 0, 0, 5⟩
        = .ok (out, (s,
            Call.init
              (out.lambda.getD 0 0 * ((3 : Nat) : ℝ)
                / scaleY (echoEnv Real.exp Real.log (.ok 0) 1) ⟨3, 1, [0, 0, 0]⟩ [1, 2, 4] true true)
              (out.lambda.getD 0 0 * ((3 : Nat) : ℝ)
                / scaleY (echoEnv Real.exp Real.log (.ok 0) 1) ⟨3, 1, [0, 0, 0]⟩ [1, 2, 4] true true
                / ((5 : ℝ) * (0 * 0)))
            :: rest))
      ∧ out.lambda
          = path (echoEnv Real.exp Real.log (.ok 0) 1) ⟨3, 1, [0, 0, 0]⟩ [1, 2, 4] [3, 1] 0 (1 / 2) true true ⟨10, 0, 0, 5⟩
              (0 * 0)
      ∧ ∀ c ∈ rest, ∀ a b, c ≠ Call.init a b :=
  C7_rho_from_unfloored_sprad (echoEnv Real.exp Real.log (.ok 0) 1) ⟨3, 1, [0, 0, 0]⟩ [1, 2, 4] [3, 1] 0 (1 / 2) true true
    ⟨10, 0, 0, 5⟩ 0 rfl (by simp [path, lambda_path])

/-- Claim C8 as stated fails. With `maxit = 0` and `eps_abs = -1` the call reports no error:
it calls `init` and `solve(0)` and returns an output; with a requested count of 0 and no
lambda supplied it returns an output with an empty path, no solver call being made. -/
theorem C8_no_validation_counterexample :
    (∃ out s rho,
      admm_lasso (tracedEnv (echoEnv Real.exp Real.log (.ok 1) 1)) ⟨1, 1, [1]⟩ [1] [1] 1
          (1 / 2) true true ⟨0, -1, 0, 1⟩
        = .ok (out, (s, [Call.init 1 rho, Call.solve 0]))
      ∧ out.lambda = [1] ∧ out.niter = [0])
    ∧ ∃ out s,
      admm_lasso (tracedEnv (echoEnv Real.exp Real.log (.ok 1) 1)) ⟨1, 1, [1]⟩ [1] [] 0
          (1 / 2) true true ⟨10, 0, 0, 1⟩
        = .ok (out, (s, []))
      ∧ out.lambda = [] ∧ out.niter = [] ∧ out.beta.entries = [] := by
  constructor
  · obtain ⟨out, s, hrun, hlam, _, hnit⟩ := admm_lasso_traced_full
      (echoEnv Real.exp Real.log (.ok 1) 1) ⟨1, 1, [1]⟩ [1] [1] 1 (1 / 2) true true
      ⟨0, -1, 0, 1⟩ (1 * 1) rfl
    have hp : path (echoEnv Real.exp Real.log (.ok 1) 1) ⟨1, 1, [1]⟩ [1] [1] 1 (1 / 2)
        true true ⟨0, -1, 0, 1⟩ (1 * 1) = [1] := rfl
    have hil : ilambda (echoEnv Real.exp Real.log (.ok 1) 1) ⟨1, 1, [1]⟩ [1] [1] 1
        (1 / 2) true true ⟨0, -1, 0, 1⟩ (1 * 1) 0 = 1 := by
      simp [ilambda, path, lambda_path, scaleY, echoEnv, unitStd]
    have hlog := (final_traced_log (echoEnv Real.exp Real.log (.ok 1) 1) ⟨1, 1, [1]⟩ [1] [1] 1
      (1 / 2) true true ⟨0, -1, 0, 1⟩ (1 * 1)).2 0 (by rw [hp]; rfl)
    rw [hil] at hlog
    rw [hlog] at hrun
    exact ⟨out, s, _, hrun, hlam.trans hp, hnit.trans rfl⟩
  · obtain ⟨out, s, hrun, hlam, hbeta, hnit⟩ := admm_lasso_traced_full
      (echoEnv Real.exp Real.log (.ok 1) 1) ⟨1, 1, [1]⟩ [1] [] 0 (1 / 2) true true
      ⟨10, 0, 0, 1⟩ (1 * 1) rfl
    have hp : path (echoEnv Real.exp Real.log (.ok 1) 1) ⟨1, 1, [1]⟩ [1] [] 0 (1 / 2)
        true true ⟨10, 0, 0, 1⟩ (1 * 1) = [] := rfl
    have hlog := (final_traced_log (echoEnv Real.exp Real.log (.ok 1) 1) ⟨1, 1, [1]⟩ [1] [] 0
      (1 / 2) true true ⟨10, 0, 0, 1⟩ (1 * 1)).1 hp
    rw [hlog] at hrun
    exact ⟨out, s, hrun, hlam.trans hp, hnit.trans rfl, by rw [hbeta]; rfl⟩

/-- Claim C8, amended. The driver itself validates neither the dimensions nor the
configuration: for every input, whatever the values of `maxit`, `eps_abs`, `eps_rel`,
`rho_ratio`, the ratio and the requested count, whenever `max_eigenvalue` returns (and the
standardizer and the solver return, as their interfaces here always do) the call reports no
error and returns an output: `lambda` is the path of the call, `niter` has one entry per path
point, `beta` has `p + 1` rows and one column per path point, and the solver calls made are
exactly `init` (index 0) or `init_warm` (later indices) followed by `solve(maxit)`, for every
path point in order; none for an empty path. -/
theorem C8_returns_without_validation [Field R] (E : Env R δ σ) (x_ : MatrixXd R)
    (y_ : VectorXd R) (lambda_ : List R) (nlambda_ : Nat) (lmin_ratio_ : R)
    (standardize_ intercept_ : Bool) (opts_ : Opts R) (sprad : R)
    (hsp : max_eigenvalue E.svds_d (standardized E x_ y_ standardize_ intercept_).2.1
      = .ok sprad) :
    ∃ out s log,
      admm_lasso (tracedEnv E) x_ y_ lambda_ nlambda_ lmin_ratio_ standardize_ intercept_ opts_
        = .ok (out, (s, log))
      ∧ out.lambda
          = path E x_ y_ lambda_ nlambda_ lmin_ratio_ standardize_ intercept_ opts_ sprad
      ∧ (1 ≤ lambda_.length → out.lambda = lambda_)
      ∧ (lambda_.length < 1 → out.lambda.length = nlambda_)
      ∧ out.niter.length = out.lambda.length
      ∧ out.beta.rows = x_.cols + 1
      ∧ out.beta.cols = out.lambda.length
      ∧ log = (List.range out.lambda.length).flatMap (fun i =>
          [if i = 0 then
              Call.init
                (out.lambda.getD 0 0 * (x_.rows : R) / scaleY E x_ y_ standardize_ intercept_)
                (out.lambda.getD 0 0 * (x_.rows : R) / scaleY E x_ y_ standardize_ intercept_
                  / (opts_.rho_ratio * sprad))
            else
              Call.init_warm
                (out.lambda.getD i 0 * (x_.rows : R) / scaleY E x_ y_ standardize_ intercept_),
           Call.solve opts_.maxit]) := by
  obtain ⟨out, s, hrun, hlam, hbeta, hnit⟩ := admm_lasso_traced_full E x_ y_ lambda_ nlambda_
    lmin_ratio_ standardize_ intercept_ opts_ sprad hsp
  obtain ⟨_, h2, h3, h4⟩ := final_beta (tracedEnv E) x_ y_ lambda_ nlambda_ lmin_ratio_
    standardize_ intercept_ opts_ sprad
  rw [path_traced] at h3 h4
  refine ⟨out, s, _, hrun, hlam, ?_, ?_, ?_, ?_, ?_, ?_⟩
  · intro h
    rw [hlam]
    exact path_explicit E x_ y_ lambda_ nlambda_ lmin_ratio_ standardize_ intercept_ opts_
      sprad h
  · intro h
    rw [hlam]
    unfold path lambda_path
    rw [if_pos h, List.length_map, setLinSpaced_length]
  · rw [hnit, hlam, h4]
  · rw [hbeta, h2]
  · rw [hbeta, hlam, h3]
  · rw [final_traced_log_uniform, hlam]
    rfl

/-- Witness of the amended C8: a call with `maxit = -1`, negative tolerances, `rho_ratio = 0`,
a ratio of 2 and a requested count of 0, on the explicit path `[1, 2]`. -/
theorem C8_returns_without_validation_witness :
    ∃ out s log,
      admm_lasso (tracedEnv (echoEnv Real.exp Real.log (.ok 1) 1)) ⟨1, 1, [1]⟩ [1] [1, 2] 0 2 true true ⟨-1, -1, -1, 0⟩
        = .ok (out, (s, log))
      ∧ out.lambda
          = path (echoEnv Real.exp Real.log (.ok 1) 1) ⟨1, 1, [1]⟩ [1] [1, 2] 0 2 true true
              ⟨-1, -1, -1, 0⟩ (1 * 1)
      ∧ (1 ≤ ([1, 2] : List ℝ).length → out.lambda = [1, 2])
      ∧ (([1, 2] : List ℝ).length < 1 → out.lambda.length = 0)
      ∧ out.niter.length = out.lambda.length
      ∧ out.beta.rows = 1 + 1
      ∧ out.beta.cols = out.lambda.length
      ∧ log = (List.range out.lambda.length).flatMap (fun i =>
          [if i = 0 then
              Call.init
                (out.lambda.getD 0 0 * ((1 : Nat) : ℝ) / scaleY (echoEnv Real.exp Real.log (.ok 1) 1) ⟨1, 1, [1]⟩ [1] true true)
                (out.lambda.getD 0 0 * ((1 : Nat) : ℝ) / scaleY (echoEnv Real.exp Real.log (.ok 1) 1) ⟨1, 1, [1]⟩ [1] true true
                  / ((0 : ℝ) * (1 * 1)))
            else
              Call.init_warm
                (out.lambda.getD i 0 * ((1 : Nat) : ℝ) / scaleY (echoEnv Real.exp Real.log (.ok 1) 1) ⟨1, 1, [1]⟩ [1] true true),
           Call.solve (-1)]) :=
  C8_returns_without_validation (echoEnv Real.exp Real.log (.ok 1) 1) ⟨1, 1, [1]⟩ [1] [1, 2] 0 2 true true ⟨-1, -1, -1, 0⟩
    (1 * 1) rfl

end Claims

end ADMM
